import Mathlib

/-!
# FashionPulse — data harmonization and analytics engine, shallow embedding

This development embeds the core data pipeline of the FashionPulse dashboard
(`src/utils/sheetTransformer.ts`, `src/utils/analytics.ts`, the `DataHarmonizer`
in `src/components/PasswordGate.tsx`, and the zod row validators in the types
module) into Lean 4, and proves/refutes the specification claims about it.

Modelling conventions:
* Calendar dates carry no time-of-day (the spec fixes day granularity);
  a `YMD` structure mirrors a JS `Date` at local midnight, with `month`
  0-based exactly as `Date#getMonth`.  Timezone effects are outside the model.
* JS `number` is modelled as `ℚ`.  The concrete values in the claims are
  exactly representable, so `ℚ` and binary64 agree on them.  `NaN` is
  modelled by `Option` (`none` = NaN) at the parsing boundary.
* `Record<string, string>` rows are association lists `List (String × String)`;
  absent keys are `Option.none`, mirroring `undefined`.
-/

set_option maxRecDepth 4000

namespace FashionPulse

/-! ## Calendar model (JS `Date` at day granularity) -/

/-- A calendar date as a JS `Date` exposes it: `year` = `getFullYear()`,
`month` = `getMonth()` (0-based), `day` = `getDate()` (1-based). -/
structure YMD where
  year : Nat
  month : Nat
  day : Nat
  deriving DecidableEq, Repr

/-- Gregorian leap-year rule (what `new Date(y, 1, 29)` rolling over encodes). -/
def isLeap (y : Nat) : Bool :=
  (y % 4 == 0 && y % 100 != 0) || y % 400 == 0

/-- Source `getDaysInMonth(year, month)` from `analytics.ts`
(`new Date(year, month + 1, 0).getDate()`), with `month` 0-based; months ≥ 12
overflow into later years exactly as the JS `Date` constructor normalizes them. -/
def getDaysInMonth (year month : Nat) : Nat :=
  let y := year + month / 12
  match month % 12 with
  | 0 => 31
  | 1 => if isLeap y then 29 else 28
  | 2 => 31
  | 3 => 30
  | 4 => 31
  | 5 => 30
  | 6 => 31
  | 7 => 31
  | 8 => 30
  | 9 => 31
  | 10 => 30
  | _ => 31

/-- Days of the year strictly before (0-based) `month`, in `year`. -/
def daysBeforeMonth (year month : Nat) : Nat :=
  let leapAdd := if isLeap year then 1 else 0
  match month with
  | 0 => 0
  | 1 => 31
  | 2 => 59 + leapAdd
  | 3 => 90 + leapAdd
  | 4 => 120 + leapAdd
  | 5 => 151 + leapAdd
  | 6 => 181 + leapAdd
  | 7 => 212 + leapAdd
  | 8 => 243 + leapAdd
  | 9 => 273 + leapAdd
  | 10 => 304 + leapAdd
  | 11 => 334 + leapAdd
  | _ => 365 + leapAdd

/-- Number of leap years in `1 .. y-1`. -/
def leapsBefore (y : Nat) : Nat :=
  (y - 1) / 4 - (y - 1) / 100 + (y - 1) / 400

/-- Linear day index of a date (0 = 0001-01-01, proleptic Gregorian).
This is the day-granularity abstraction of `Date#getTime()`. -/
def dayNumber (d : YMD) : Nat :=
  365 * (d.year - 1) + leapsBefore d.year + daysBeforeMonth d.year d.month + (d.day - 1)

/-- `Date#getDay()`: 0 = Sunday … 6 = Saturday. -/
def dayOfWeekYMD (d : YMD) : Nat :=
  (dayNumber d + 1) % 7

/-- A structurally valid calendar date.  The year bound keeps `toISOString`'s
4-digit year rendering faithful; every date processed by the dashboard is
well inside it. -/
def validYMD (d : YMD) : Prop :=
  1 ≤ d.year ∧ d.year ≤ 9999 ∧ d.month < 12 ∧ 1 ≤ d.day ∧ d.day ≤ getDaysInMonth d.year d.month

instance : DecidablePred validYMD := fun d => by
  unfold validYMD; infer_instance

/-- `current.setDate(current.getDate() + 1)` on a valid date: the next calendar day. -/
def nextDay (d : YMD) : YMD :=
  if d.day < getDaysInMonth d.year d.month then ⟨d.year, d.month, d.day + 1⟩
  else if d.month < 11 then ⟨d.year, d.month + 1, 1⟩
  else ⟨d.year + 1, 0, 1⟩

/-- Day-by-day iteration: the list of `k` consecutive days starting at `d`
(the shape of the `while (current <= maxDate)` loop in `fillMissingDays`). -/
def iterateDays (d : YMD) : Nat → List YMD
  | 0 => []
  | k + 1 => d :: iterateDays (nextDay d) k

/-! ## Strings: ISO date rendering and composite keys -/

/-- The ASCII digit character for `n % 10`. -/
def digitChar (n : Nat) : Char := Char.ofNat (48 + n % 10)

/-- Two decimal digits (the `MM`/`dd` fields of `toISOString`). -/
def pad2 (n : Nat) : List Char := [digitChar (n / 10), digitChar n]

/-- Four decimal digits (the `yyyy` field of `toISOString`). -/
def pad4 (n : Nat) : List Char :=
  [digitChar (n / 1000), digitChar (n / 100), digitChar (n / 10), digitChar n]

/-- `date.toISOString().split('T')[0]` at day granularity: `yyyy-MM-dd`
(month rendered 1-based). -/
def isoString (d : YMD) : String :=
  String.mk (pad4 d.year ++ '-' :: pad2 (d.month + 1) ++ '-' :: pad2 d.day)

/-- The template literal of `fillMissingDays`: `dateString + "-" + label`. -/
def mkKey (dateString label : String) : String :=
  dateString ++ "-" ++ label

/-- `[...new Set(xs)]`: first-occurrence deduplication. -/
def jsDedup {α : Type} [DecidableEq α] (l : List α) : List α :=
  l.foldl (fun acc x => if x ∈ acc then acc else acc ++ [x]) []

/-! ## JS parsing primitives (ECMAScript `parseFloat`, `Number`, date parses) -/

/-- ASCII whitespace skipped by JS string trimming/number parsing
(the exotic Unicode space characters never occur in the sheet feed). -/
def isWS (c : Char) : Bool := c = ' ' || c = '\t' || c = '\n' || c = '\r'

def isDigitCh (c : Char) : Bool := '0' ≤ c && c ≤ '9'

/-- JS `String.prototype.trim()` (ASCII whitespace). -/
def jsTrim (s : String) : String :=
  String.mk (((s.data.dropWhile isWS).reverse.dropWhile isWS).reverse)

def digitVal (c : Char) : Nat := c.toNat - 48

/-- Longest digit prefix and the remaining input. -/
def takeDigits : List Char → (List Nat × List Char)
  | [] => ([], [])
  | c :: cs =>
    if isDigitCh c then
      let r := takeDigits cs
      (digitVal c :: r.1, r.2)
    else ([], c :: cs)

/-- Value of a digit list read most-significant first. -/
def digitsVal (ds : List Nat) : Nat := ds.foldl (fun a d => 10 * a + d) 0

/-- Optional leading sign: `(isNegative, rest)`. -/
def splitSign : List Char → (Bool × List Char)
  | '+' :: cs => (false, cs)
  | '-' :: cs => (true, cs)
  | cs => (false, cs)

/-- Optional exponent `e±digits`/`E±digits`; backtracks (exponent `0`, input
unchanged) when no digits follow the marker, as the longest-match rule demands. -/
def parseExp (cs : List Char) : Int × List Char :=
  match cs with
  | c :: rest =>
    if c = 'e' || c = 'E' then
      let sg := splitSign rest
      let ds := takeDigits sg.2
      if ds.1.isEmpty then (0, cs)
      else (if sg.1 then -(digitsVal ds.1 : Int) else (digitsVal ds.1 : Int), ds.2)
    else (0, cs)
  | [] => (0, [])

/-- The decimal-literal fragment of ECMAScript `parseFloat` on a char list:
longest prefix of shape `[+-]? digits [. digits]? ([eE][+-]?digits)?`;
`none` models `NaN`.  The `Infinity` literal and non-decimal literals are
outside the model (no sheet cell produces them). -/
def parseFloatCore (cs : List Char) : Option ℚ :=
  let sg := splitSign cs
  let ip := takeDigits sg.2
  let fp := match ip.2 with
    | '.' :: rest => takeDigits rest
    | _ => (([] : List Nat), ip.2)
  if ip.1.isEmpty ∧ fp.1.isEmpty then none
  else
    let mant : ℚ := (digitsVal ip.1 : ℚ) + (digitsVal fp.1 : ℚ) / (10 : ℚ) ^ fp.1.length
    let v := mant * (10 : ℚ) ^ (parseExp fp.2).1
    some (if sg.1 then -v else v)

/-- `parseFloat(s)`: skip leading whitespace, parse the decimal prefix. -/
def jsParseFloat (s : String) : Option ℚ :=
  parseFloatCore (s.data.dropWhile isWS)

/-- ECMAScript `Number(s)` on strings (decimal grammar): the whole trimmed
string must be a decimal literal; trimmed-empty gives `0`; `none` models `NaN`. -/
def jsToNumber (s : String) : Option ℚ :=
  let cs := ((s.data.dropWhile isWS).reverse.dropWhile isWS).reverse
  if cs.isEmpty then some 0
  else
    let sg := splitSign cs
    let ip := takeDigits sg.2
    let fp := match ip.2 with
      | '.' :: rest => takeDigits rest
      | _ => (([] : List Nat), ip.2)
    if ip.1.isEmpty ∧ fp.1.isEmpty then none
    else
      let e := parseExp fp.2
      if e.2.isEmpty then
        let mant : ℚ := (digitsVal ip.1 : ℚ) + (digitsVal fp.1 : ℚ) / (10 : ℚ) ^ fp.1.length
        let v := mant * (10 : ℚ) ^ e.1
        some (if sg.1 then -v else v)
      else none

/-! ## Rows (`Record<string, string>`) and JS field access -/

/-- A raw spreadsheet row: string-keyed, string-valued; a missing key reads as
`undefined` (`none`). -/
abbrev RawRow := List (String × String)

/-- `row[key]`. -/
def getField (r : RawRow) (k : String) : Option String :=
  (r.find? (fun p => p.1 == k)).map (fun p => p.2)

/-- JS `a || b` on possibly-`undefined` strings (`undefined` and `""` are falsy). -/
def jsOrStr (a b : Option String) : Option String :=
  match a with
  | some s => if s = "" then b else some s
  | none => b

/-- JS `a || "dflt"` collapsed to a plain string. -/
def jsOrDefault (a : Option String) (dflt : String) : String :=
  match a with
  | some s => if s = "" then dflt else s
  | none => dflt

/-! ## Locale value parser (`sheetTransformer.ts`) -/

/-- `.replace(/\./g, '')`: delete every period. -/
def removeDots (s : String) : String :=
  String.mk (s.data.filter (fun c => c ≠ '.'))

/-- `.replace(',', '.')` with a string pattern: replace the first comma only. -/
def replaceFirstComma : List Char → List Char
  | [] => []
  | c :: cs => if c = ',' then '.' :: cs else c :: replaceFirstComma cs

/-- `parseEuropeanNumber` (`sheetTransformer.ts`), on the `string | undefined |
null` slice of its input type — every call site passes sheet cells, so the
pass-through `typeof value === 'number'` branch never fires and is not modelled.
`none` is `undefined`/`null`. -/
def parseEuropeanNumber (value : Option String) : ℚ :=
  match value with
  | none => 0
  | some s =>
    if s = "" then 0
    else
      let strVal := jsTrim s
      let noDots := removeDots strVal
      let withDecimal := String.mk (replaceFirstComma noDots.data)
      match jsParseFloat withDecimal with
      | none => 0
      | some q => q

/-- Strict `d-M-yyyy` (date-fns pattern): 1–2 digit day, 1–2 digit month,
4-digit year, nothing else; date-fns validates the triple against the calendar. -/
def parseDMY (cs : List Char) : Option YMD :=
  let dd := takeDigits cs
  if dd.1.length = 1 ∨ dd.1.length = 2 then
    match dd.2 with
    | '-' :: rest1 =>
      let mm := takeDigits rest1
      if mm.1.length = 1 ∨ mm.1.length = 2 then
        match mm.2 with
        | '-' :: rest2 =>
          let yy := takeDigits rest2
          if yy.1.length = 4 ∧ yy.2.isEmpty then
            let day := digitsVal dd.1
            let mon := digitsVal mm.1
            let yr := digitsVal yy.1
            if 1 ≤ mon ∧ mon ≤ 12 ∧ 1 ≤ day ∧ day ≤ getDaysInMonth yr (mon - 1) then
              some ⟨yr, mon - 1, day⟩
            else none
          else none
        | _ => none
      else none
    | _ => none
  else none

/-- Strict `yyyy-MM-dd` (date-fns pattern / ISO date-only `Date.parse`). -/
def parseISO (cs : List Char) : Option YMD :=
  let yy := takeDigits cs
  if yy.1.length = 4 then
    match yy.2 with
    | '-' :: rest1 =>
      let mm := takeDigits rest1
      if mm.1.length = 2 then
        match mm.2 with
        | '-' :: rest2 =>
          let dd := takeDigits rest2
          if dd.1.length = 2 ∧ dd.2.isEmpty then
            let yr := digitsVal yy.1
            let mon := digitsVal mm.1
            let day := digitsVal dd.1
            if 1 ≤ mon ∧ mon ≤ 12 ∧ 1 ≤ day ∧ day ≤ getDaysInMonth yr (mon - 1) then
              some ⟨yr, mon - 1, day⟩
            else none
          else none
        | _ => none
      else none
    | _ => none
  else none

/-- `trimmed.replace(/[./]/g, '-')`: normalize the separators to hyphens. -/
def normSeps (cs : List Char) : List Char :=
  cs.map (fun c => if c = '.' ∨ c = '/' then '-' else c)

/-- `parseEuropeanDate` (`sheetTransformer.ts`): strict `d-M-yyyy`, then the
same after separator normalization, then ISO `yyyy-MM-dd`; `none` only when
all three attempts fail. -/
def parseEuropeanDate (value : Option String) : Option YMD :=
  match value with
  | none => none
  | some s =>
    let t := jsTrim s
    match parseDMY t.data with
    | some d => some d
    | none =>
      match parseDMY (normSeps t.data) with
      | some d => some d
      | none => parseISO t.data

/-- `Date.parse` / `new Date(string)` on its ISO date-only form, the only form
the historical JSON feed uses; the other ECMAScript date-time string shapes are
outside the model. -/
def jsDateParse (s : String) : Option YMD := parseISO s.data

/-! ## Data model (types module) -/

/-- `DailyMetrics` from the types module: one brand-label's activity on one day. -/
structure DailyMetrics where
  date : YMD
  dateString : String
  label : String
  revenueWeb : ℚ
  revenueApp : ℚ
  totalRevenue : ℚ
  orders : ℚ
  aov : ℚ
  spendFB : ℚ
  spendGoogle : ℚ
  totalSpend : ℚ
  clicksFB : ℚ
  clicksGoogle : ℚ
  totalClicks : ℚ
  mer : ℚ
  contributionMargin : ℚ
  roasFB : ℚ
  roasGoogle : ℚ
  dayOfWeek : Nat
  weekOfMonth : Nat
  monthDay : Nat
  deriving DecidableEq, Repr

/-- `MonthlyTarget`: one label's goal for one `yyyy-MM` month. -/
structure MonthlyTarget where
  month : String
  label : String
  revenueTarget : ℚ
  ordersTarget : ℚ
  merTarget : ℚ
  deriving DecidableEq, Repr

/-- `EventAnnotation`; `type` is the lower-cased tag (the `as EventType` cast in
the source is unchecked, so any string value flows through at runtime). -/
structure EventAnnotation where
  date : YMD
  dateString : String
  title : String
  description : Option String
  type : String
  label : Option String
  deriving DecidableEq, Repr

/-- `DataRowRaw`: a zod-validated historical row (`DataRowSchema`). -/
structure DataRowRaw where
  Date : String
  Label : String
  Rev_Web : ℚ
  Rev_App : ℚ
  Orders : ℚ
  Spend_FB : ℚ
  Spend_Google : ℚ
  Clicks_FB : ℚ
  Clicks_Google : ℚ
  deriving DecidableEq, Repr

/-- `z.preprocess((val) => Number(val) || 0, ...)`: `Number` of the cell, with
`NaN` (and `0`/`-0`) collapsing to `0`; a missing cell is `Number(undefined) = NaN`. -/
def zodNum (v : Option String) : ℚ :=
  match v with
  | none => 0
  | some s =>
    match jsToNumber s with
    | none => 0
    | some q => q

/-- `parseDataRow` (types module): `DataRowSchema.parse` returning `null`
(`none`) on any failure.  `z.string()` fails on a missing key; the `Date`
refinement requires `Date.parse` to succeed; the numeric fields go through
`zodNum` and must be `≥ 0`, with `Orders`/`Clicks_*` additionally integral. -/
def parseDataRow (r : RawRow) : Option DataRowRaw :=
  match getField r "Date", getField r "Label" with
  | some dateStr, some label =>
    if (jsDateParse dateStr).isSome then
      let revWeb := zodNum (getField r "Rev_Web")
      let revApp := zodNum (getField r "Rev_App")
      let orders := zodNum (getField r "Orders")
      let spendFB := zodNum (getField r "Spend_FB")
      let spendGoogle := zodNum (getField r "Spend_Google")
      let clicksFB := zodNum (getField r "Clicks_FB")
      let clicksGoogle := zodNum (getField r "Clicks_Google")
      if 0 ≤ revWeb ∧ 0 ≤ revApp ∧ 0 ≤ orders ∧ orders.den = 1 ∧
          0 ≤ spendFB ∧ 0 ≤ spendGoogle ∧
          0 ≤ clicksFB ∧ clicksFB.den = 1 ∧ 0 ≤ clicksGoogle ∧ clicksGoogle.den = 1 then
        some { Date := dateStr, Label := label, Rev_Web := revWeb, Rev_App := revApp,
               Orders := orders, Spend_FB := spendFB, Spend_Google := spendGoogle,
               Clicks_FB := clicksFB, Clicks_Google := clicksGoogle }
      else none
    else none
  | _, _ => none

/-- `safeParseRows`: collect parsed rows, count failures. -/
def safeParseRows {T : Type} (rows : List RawRow) (parser : RawRow → Option T) :
    List T × Nat :=
  rows.foldl (fun acc row =>
    match parser row with
    | some p => (acc.1 ++ [p], acc.2)
    | none => (acc.1, acc.2 + 1)) ([], 0)

/-! ## Date utilities and row transforms (`analytics.ts`) -/

/-- `getWeekOfMonth`: `Math.ceil((dayOfMonth + firstDayOfWeek) / 7)`. -/
def getWeekOfMonth (date : YMD) : Nat :=
  (date.day + dayOfWeekYMD ⟨date.year, date.month, 1⟩ + 6) / 7

/-- `findNthMatch p n l`: the `n`-th element of `l` satisfying `p` (the
count-and-return loop of `getNthWeekdayOfMonth`); `n = 0` never returns. -/
def findNthMatch {α : Type} (p : α → Bool) : Nat → List α → Option α
  | _, [] => none
  | n, x :: xs =>
    if p x then
      if n = 1 then some x else findNthMatch p (n - 1) xs
    else findNthMatch p n xs

/-- `getNthWeekdayOfMonth` (`analytics.ts`): scan the days of the month in
order and return the `n`-th one falling on `weekday`. -/
def getNthWeekdayOfMonth (year month weekday n : Nat) : Option YMD :=
  (findNthMatch (fun day => dayOfWeekYMD ⟨year, month, day⟩ == weekday) n
    (List.range' 1 (getDaysInMonth year month))).map
    (fun day => (⟨year, month, day⟩ : YMD))

/-- `alignDateByDayOfWeek` (`analytics.ts`).  The fallback keeps the raw
`(previousYear, month, day)` triple; the JS `Date` constructor would normalize
a day overflowing the month, which cannot happen for any weekday/week-of-month
combination an actual date produces (the scan succeeds whenever the month has
that many matching weekdays, and otherwise `day ≤ 31` rolls by at most 3 days —
noted where used). -/
def alignDateByDayOfWeek (currentDate : YMD) : YMD :=
  let weekday := dayOfWeekYMD currentDate
  let weekOfMonth := getWeekOfMonth currentDate
  let previousYear := currentDate.year - 1
  let month := currentDate.month
  match getNthWeekdayOfMonth previousYear month weekday weekOfMonth with
  | some alignedDate => alignedDate
  | none => ⟨previousYear, month, currentDate.day⟩

/-- `transformToMetrics` (`analytics.ts`): raw validated row → `DailyMetrics`.
`new Date(row.Date)` re-parses the ISO date; the schema already guaranteed it
parses, so the fallback date is unreachable.  Note `dateString` keeps the raw
input string. -/
def transformToMetrics (row : DataRowRaw) : DailyMetrics :=
  let date := (jsDateParse row.Date).getD ⟨1970, 0, 1⟩
  let totalRevenue := row.Rev_Web + row.Rev_App
  let totalSpend := row.Spend_FB + row.Spend_Google
  let totalClicks := row.Clicks_FB + row.Clicks_Google
  { date := date,
    dateString := row.Date,
    label := row.Label,
    revenueWeb := row.Rev_Web,
    revenueApp := row.Rev_App,
    totalRevenue := totalRevenue,
    orders := row.Orders,
    aov := if row.Orders > 0 then totalRevenue / row.Orders else 0,
    spendFB := row.Spend_FB,
    spendGoogle := row.Spend_Google,
    totalSpend := totalSpend,
    clicksFB := row.Clicks_FB,
    clicksGoogle := row.Clicks_Google,
    totalClicks := totalClicks,
    mer := if totalRevenue > 0 then totalSpend / totalRevenue else 0,
    contributionMargin := totalRevenue - totalSpend,
    roasFB := if row.Spend_FB > 0 then row.Rev_Web * (6/10) / row.Spend_FB else 0,
    roasGoogle := if row.Spend_Google > 0 then row.Rev_Web * (4/10) / row.Spend_Google else 0,
    dayOfWeek := dayOfWeekYMD date,
    weekOfMonth := getWeekOfMonth date,
    monthDay := date.day }

/-! ## Row transformer (`sheetTransformer.ts`) -/

/-- `TransformedSheetRow`. -/
structure TransformedSheetRow where
  date : YMD
  dateString : String
  brand : String
  revenueWeb : ℚ
  revenueApp : ℚ
  totalRevenue : ℚ
  ordersTotal : ℚ
  ordersApp : ℚ
  ordersWeb : ℚ
  conversionsFb : ℚ
  conversionsGoogle : ℚ
  totalConversions : ℚ
  spendFb : ℚ
  spendGoogle : ℚ
  totalSpend : ℚ
  aov : ℚ
  mer : ℚ
  contributionMargin : ℚ
  dayOfWeek : Nat
  weekOfMonth : Nat
  monthDay : Nat
  deriving DecidableEq, Repr

/-- The discriminated result of `transformSheetRow`:
`{row: null, isEmpty: true}` ↦ `empty`, `{row: null, isEmpty: false}` ↦
`invalid`, `{row, isEmpty: false}` ↦ `valid row`. -/
inductive SheetRowResult where
  | empty
  | invalid
  | valid (row : TransformedSheetRow)
  deriving DecidableEq, Repr

/-- `isEmptyRow`: both the date and label cells missing or blank after trim. -/
def isEmptyRow (rawRow : RawRow) : Bool :=
  let dateValue := (getField rawRow "Date").map jsTrim
  let labelValue := (getField rawRow "Label").map jsTrim
  (dateValue == none || dateValue == some "") &&
    (labelValue == none || labelValue == some "")

/-- `transformSheetRow` (`sheetTransformer.ts`).  `format(parsedDate,
'yyyy-MM-dd')` renders the local calendar date, i.e. `isoString` at day
granularity. -/
def transformSheetRow (rawRow : RawRow) : SheetRowResult :=
  if isEmptyRow rawRow then .empty
  else
    match parseEuropeanDate (getField rawRow "Date") with
    | none => .invalid
    | some parsedDate =>
      let revenueWeb := parseEuropeanNumber (getField rawRow "Rev_Web")
      let revenueApp := parseEuropeanNumber (getField rawRow "Rev_App")
      let ordersTotal := parseEuropeanNumber (getField rawRow "Orders")
      let ordersApp := parseEuropeanNumber (getField rawRow "Orders_App")
      let conversionsFb := parseEuropeanNumber (getField rawRow "Conv_FB")
      let conversionsGoogle := parseEuropeanNumber
        (jsOrStr (getField rawRow "Conv_Google") (getField rawRow "Conversions_Google"))
      let spendFb := parseEuropeanNumber (getField rawRow "Spend_FB")
      let spendGoogle := parseEuropeanNumber (getField rawRow "Spend_Google")
      let totalRevenue := revenueWeb + revenueApp
      let ordersWeb := ordersTotal - ordersApp
      let totalConversions := conversionsFb + conversionsGoogle
      let totalSpend := spendFb + spendGoogle
      let aov := if ordersTotal > 0 then totalRevenue / ordersTotal else 0
      let mer := if totalRevenue > 0 then totalSpend / totalRevenue else 0
      let contributionMargin := totalRevenue - totalSpend
      .valid
        { date := parsedDate,
          dateString := isoString parsedDate,
          brand := jsOrDefault ((getField rawRow "Label").map jsTrim) "Unknown",
          revenueWeb := revenueWeb,
          revenueApp := revenueApp,
          totalRevenue := totalRevenue,
          ordersTotal := ordersTotal,
          ordersApp := ordersApp,
          ordersWeb := ordersWeb,
          conversionsFb := conversionsFb,
          conversionsGoogle := conversionsGoogle,
          totalConversions := totalConversions,
          spendFb := spendFb,
          spendGoogle := spendGoogle,
          totalSpend := totalSpend,
          aov := aov,
          mer := mer,
          contributionMargin := contributionMargin,
          dayOfWeek := dayOfWeekYMD parsedDate,
          weekOfMonth := (parsedDate.day + dayOfWeekYMD ⟨parsedDate.year, parsedDate.month, 1⟩ + 6) / 7,
          monthDay := parsedDate.day }

/-- The stable ascending-by-date sort used by `transformSheetData`. -/
def sortRowsByDate (rows : List TransformedSheetRow) : List TransformedSheetRow :=
  rows.mergeSort (fun a b => dayNumber a.date ≤ dayNumber b.date)

/-- `transformSheetData`: transform every row, silently skipping empties,
counting invalids, then sort ascending by date. -/
def transformSheetData (rawRows : List RawRow) : List TransformedSheetRow × Nat :=
  let r := rawRows.foldl (fun acc rawRow =>
    match transformSheetRow rawRow with
    | .empty => acc
    | .invalid => (acc.1, acc.2 + 1)
    | .valid row => (acc.1 ++ [row], acc.2)) ([], 0)
  (sortRowsByDate r.1, r.2)

/-- `toCompatibleMetrics`: conversions stand in for clicks. -/
def toCompatibleMetrics (row : TransformedSheetRow) : DailyMetrics :=
  let clicksFB := row.conversionsFb
  let clicksGoogle := row.conversionsGoogle
  { date := row.date,
    dateString := row.dateString,
    label := row.brand,
    revenueWeb := row.revenueWeb,
    revenueApp := row.revenueApp,
    totalRevenue := row.totalRevenue,
    orders := row.ordersTotal,
    aov := row.aov,
    spendFB := row.spendFb,
    spendGoogle := row.spendGoogle,
    totalSpend := row.totalSpend,
    clicksFB := clicksFB,
    clicksGoogle := clicksGoogle,
    totalClicks := clicksFB + clicksGoogle,
    mer := row.mer,
    contributionMargin := row.contributionMargin,
    roasFB := if row.spendFb > 0 then (row.revenueWeb * (6/10)) / row.spendFb else 0,
    roasGoogle := if row.spendGoogle > 0 then (row.revenueWeb * (4/10)) / row.spendGoogle else 0,
    dayOfWeek := row.dayOfWeek,
    weekOfMonth := row.weekOfMonth,
    monthDay := row.monthDay }

/-! ## DataHarmonizer (`PasswordGate.tsx`) -/

/-- The mutable accumulator fields of the `DataHarmonizer` class. -/
structure HarmonizerState where
  historicalData : List DailyMetrics
  liveData : List DailyMetrics
  targets : List MonthlyTarget
  events : List EventAnnotation
  errors : List String
  deriving DecidableEq, Repr

/-- A freshly constructed `DataHarmonizer`. -/
def emptyHarmonizer : HarmonizerState := ⟨[], [], [], [], []⟩

/-- The `{ success, errors }` summary every batch-adder returns. -/
structure BatchSummary where
  success : Nat
  errors : Nat
  deriving DecidableEq, Repr

/-- `addHistoricalData(rawData, year)`: zod-parse each row, keep the rows whose
parsed date falls in `year` (`getFullYear()` of an invalid date is `NaN` and
never equals `year`), transform, and **append** to the historical accumulator. -/
def addHistoricalData (s : HarmonizerState) (rawData : List RawRow) (year : Nat) :
    HarmonizerState × BatchSummary :=
  let pr := safeParseRows rawData parseDataRow
  let metrics := (pr.1.filter (fun row =>
    match jsDateParse row.Date with
    | some d => d.year == year
    | none => false)).map transformToMetrics
  ({ s with
      historicalData := s.historicalData ++ metrics,
      errors := if pr.2 > 0 then
          s.errors ++ ["Historical data (" ++ toString year ++ "): " ++
            toString pr.2 ++ " rows failed validation"]
        else s.errors },
   ⟨pr.1.length, pr.2⟩)

/-- `addLiveDataEuropean(rawData)`: transform the sheet batch and **replace**
the live accumulator with it. -/
def addLiveDataEuropean (s : HarmonizerState) (rawData : List RawRow) :
    HarmonizerState × BatchSummary :=
  let td := transformSheetData rawData
  let metrics := td.1.map toCompatibleMetrics
  ({ s with
      liveData := metrics,
      errors := if td.2 > 0 then
          s.errors ++ ["Live data: " ++ toString td.2 ++ " rows failed validation"]
        else s.errors },
   ⟨td.1.length, td.2⟩)

/-- `addLiveData(rawData)` (legacy): zod-parse and **replace** the live
accumulator. -/
def addLiveData (s : HarmonizerState) (rawData : List RawRow) :
    HarmonizerState × BatchSummary :=
  let pr := safeParseRows rawData parseDataRow
  let metrics := pr.1.map transformToMetrics
  ({ s with
      liveData := metrics,
      errors := if pr.2 > 0 then
          s.errors ++ ["Live data: " ++ toString pr.2 ++ " rows failed validation"]
        else s.errors },
   ⟨pr.1.length, pr.2⟩)

/-- The regex `^(\d{1,2})[-\/](\d{4})$` of `normalizeMonth`: 1–2 month digits,
`-` or `/`, 4 year digits; yields the two captured digit groups. -/
def monthPattern (cs : List Char) : Option (List Nat × List Nat) :=
  let mm := takeDigits cs
  if mm.1.length = 1 ∨ mm.1.length = 2 then
    match mm.2 with
    | c :: rest =>
      if c = '-' ∨ c = '/' then
        let yy := takeDigits rest
        if yy.1.length = 4 ∧ yy.2.isEmpty then some (mm.1, yy.1) else none
      else none
    | [] => none
  else none

/-- `normalizeMonth`: `"1-2025"`, `"01-2025"`, `"1/2025"`, `"01/2025"` →
`"2025-01"`; anything else (already `yyyy-MM` or unrecognized) passes through
unchanged. -/
def normalizeMonth (monthStr : String) : String :=
  match monthPattern monthStr.data with
  | some (mds, yds) =>
    let monthChars := if mds.length = 1 then '0' :: mds.map digitChar else mds.map digitChar
    String.mk (yds.map digitChar ++ '-' :: monthChars)
  | none => monthStr

/-- `addTargets(rawData)` (the European-format variant of `PasswordGate.tsx`):
per row, read the month/label cells under both header casings, normalize the
month, read each numeric target under its accepted header variants, normalize a
percentage-style MER target, skip (and count) rows with an empty month cell,
and **replace** the targets accumulator.  The `try`/`catch` body performs no
throwing operation on string records, so the catch path is dead; the parsed
`Ad_budget` is captured but unused in the source and omitted here. -/
def addTargets (s : HarmonizerState) (rawData : List RawRow) :
    HarmonizerState × BatchSummary :=
  let r := rawData.foldl (fun (acc : List MonthlyTarget × Nat) (r : RawRow) =>
    let rawMonth := jsOrDefault (jsOrStr (getField r "Month") (getField r "month")) ""
    let label := jsOrDefault (jsOrStr (getField r "Label") (getField r "label")) "All"
    let month := normalizeMonth rawMonth
    let revenueTarget := parseEuropeanNumber (some (jsOrDefault
      (jsOrStr (jsOrStr (jsOrStr (getField r "Rev_target") (getField r "Revenue_Target"))
        (getField r "revenue_target")) (getField r "RevenueTarget")) "0"))
    let ordersTarget := parseEuropeanNumber (some (jsOrDefault
      (jsOrStr (jsOrStr (getField r "Orders_Target") (getField r "orders_target"))
        (getField r "OrdersTarget")) "0"))
    let merTargetRaw := parseEuropeanNumber (some (jsOrDefault
      (jsOrStr (jsOrStr (getField r "MER_Target") (getField r "mer_target"))
        (getField r "MERTarget")) "0.2"))
    let merTarget := if merTargetRaw > 1 then merTargetRaw / 100 else merTargetRaw
    if rawMonth = "" then (acc.1, acc.2 + 1)
    else
      (acc.1 ++ [{ month := month, label := label, revenueTarget := revenueTarget,
                   ordersTarget := ordersTarget, merTarget := merTarget }], acc.2))
    ([], 0)
  ({ s with
      targets := r.1,
      errors := if r.2 > 0 then
          s.errors ++ ["Targets: " ++ toString r.2 ++ " rows failed validation"]
        else s.errors },
   ⟨r.1.length, r.2⟩)

/-- `dateStr.split('-')`. -/
def splitOnChar : List Char → Char → List (List Char)
  | [], _ => [[]]
  | c :: rest, sep =>
    match splitOnChar rest sep with
    | [] => [[c]]
    | g :: gs => if c = sep then [] :: g :: gs else (c :: g) :: gs

/-- The event-date parse of `addEvents`: a hyphenated string whose first
component has ≤ 2 characters goes through `new Date(year, month-1, day)` on
`split('-').map(Number)`; otherwise `new Date(dateStr)` (ISO).  Modelled for
components denoting an in-range calendar date; out-of-range components (which
the JS `Date` constructor would arithmetically normalize instead of rejecting)
are outside the model and land in the invalid branch. -/
def parseEventDate (ds : String) : Option YMD :=
  let cs := ds.data
  if cs.contains '-' ∧ ((splitOnChar cs '-').headD []).length ≤ 2 then
    let parts := (splitOnChar cs '-').map (fun p => jsToNumber (String.mk p))
    match parts.getD 0 none, parts.getD 1 none, parts.getD 2 none with
    | some day, some month, some year =>
      if 1 ≤ month ∧ month ≤ 12 ∧ 1 ≤ day ∧ 1 ≤ year ∧ year ≤ 9999 ∧
          day.den = 1 ∧ month.den = 1 ∧ year.den = 1 ∧
          day ≤ (getDaysInMonth year.num.toNat (month.num.toNat - 1) : ℚ) then
        some ⟨year.num.toNat, month.num.toNat - 1, day.num.toNat⟩
      else none
    | _, _, _ => none
  else jsDateParse ds

/-- `addEvents(rawData)`: parse each event row (missing/blank date: silently
skipped; unparsable date: counted), and **replace** the events accumulator. -/
def addEvents (s : HarmonizerState) (rawData : List RawRow) :
    HarmonizerState × BatchSummary :=
  let r := rawData.foldl (fun (acc : List EventAnnotation × Nat) (row : RawRow) =>
    match jsOrStr (getField row "Date") (getField row "date") with
    | none => acc
    | some ds =>
      if ds = "" then acc
      else
        match parseEventDate ds with
        | none => (acc.1, acc.2 + 1)
        | some date =>
          (acc.1 ++ [{ date := date,
                       dateString := isoString date,
                       title := jsOrDefault (jsOrStr (getField row "Title") (getField row "title")) "Event",
                       description := jsOrStr (getField row "Description") (getField row "description"),
                       type := (jsOrDefault (jsOrStr (getField row "Type") (getField row "type")) "other").toLower,
                       label := jsOrStr (getField row "Label") (getField row "label") }],
           acc.2))
    ([], 0)
  ({ s with
      events := r.1,
      errors := if r.2 > 0 then
          s.errors ++ ["Events: " ++ toString r.2 ++ " rows failed validation"]
        else s.errors },
   ⟨r.1.length, r.2⟩)

/-- The running fold of `new Date(Math.min(...dates))`: the date of minimal
day index among `metrics`, seeded with the first record's date. -/
def minDateFold (metrics : List DailyMetrics) (d0 : YMD) : YMD :=
  metrics.foldl (fun acc m => if dayNumber m.date < dayNumber acc then m.date else acc) d0

/-- The running fold of `Math.max(...dates)`, as a day index. -/
def maxNFold (metrics : List DailyMetrics) (n0 : Nat) : Nat :=
  metrics.foldl (fun acc m => max acc (dayNumber m.date)) n0

/-- The number of days in the inclusive `minDate..maxDate` span observed in
`metrics`: the number of iterations of the `while (current <= maxDate)` loop
of `fillMissingDays`. -/
def spanDays : List DailyMetrics → Nat
  | [] => 0
  | m0 :: rest =>
    maxNFold (m0 :: rest) (dayNumber m0.date) + 1 -
      dayNumber (minDateFold (m0 :: rest) m0.date)

/-- The zero-valued gap record pushed by `fillMissingDays` for a missing
`(day, label)` combination. -/
def zeroRecord (current : YMD) (dateString label : String) : DailyMetrics :=
  { date := current,
    dateString := dateString,
    label := label,
    revenueWeb := 0, revenueApp := 0, totalRevenue := 0,
    orders := 0, aov := 0,
    spendFB := 0, spendGoogle := 0, totalSpend := 0,
    clicksFB := 0, clicksGoogle := 0, totalClicks := 0,
    mer := 0, contributionMargin := 0, roasFB := 0, roasGoogle := 0,
    dayOfWeek := dayOfWeekYMD current,
    weekOfMonth := (current.day + dayOfWeekYMD ⟨current.year, current.month, 1⟩ + 6) / 7,
    monthDay := current.day }

/-- `fillMissingDays(metrics, labels)`: span the observed min..max day range and
append a zero-valued record for every `(day, label)` whose
`dateString + "-" + label` key is not already present.  The JS loop walks
`Date` objects day by day; here the same walk is the `iterateDays` list over
the span length.  `new Date(Math.min(...))` is realized by the element of
minimal day index (unique for calendar-valid dates). -/
def fillMissingDays : List DailyMetrics → List String → List DailyMetrics
  | [], _ => []
  | m0 :: rest, labels =>
    let minDate := minDateFold (m0 :: rest) m0.date
    let existingKeys := (m0 :: rest).map (fun m => mkKey m.dateString m.label)
    (m0 :: rest) ++ (iterateDays minDate (spanDays (m0 :: rest))).flatMap
      (fun current =>
        let dateString := isoString current
        (labels.filter (fun label => !(existingKeys.contains (mkKey dateString label)))).map
          (fun label => zeroRecord current dateString label))

/-- Provenance metadata entry. -/
structure DataSource where
  type : String
  year : Nat
  data : List DailyMetrics
  deriving DecidableEq, Repr

/-- `HarmonizedData` minus `lastUpdated` (a wall-clock timestamp, not modelled;
no claim mentions it). -/
structure HarmonizedData where
  metrics : List DailyMetrics
  targets : List MonthlyTarget
  events : List EventAnnotation
  sources : List DataSource
  deriving DecidableEq, Repr

/-- The stable ascending-by-date sort of `harmonize`. -/
def sortMetricsByDate (metrics : List DailyMetrics) : List DailyMetrics :=
  metrics.mergeSort (fun a b => dayNumber a.date ≤ dayNumber b.date)

/-- `harmonize(fillMissing)`: concatenate historical and live metrics, dedupe
labels, optionally gap-fill, sort by date, and assemble the snapshot with
provenance.  The method reads the accumulator fields but assigns none of them,
so the state passes through unchanged. -/
def harmonize (s : HarmonizerState) (fillMissing : Bool) :
    HarmonizedData × HarmonizerState :=
  let allMetrics0 := s.historicalData ++ s.liveData
  let labels := jsDedup (allMetrics0.map (fun m => m.label))
  let allMetrics1 :=
    if fillMissing ∧ allMetrics0.length > 0 then fillMissingDays allMetrics0 labels
    else allMetrics0
  let allMetrics := sortMetricsByDate allMetrics1
  let historicalYears := jsDedup (s.historicalData.map (fun m => m.date.year))
  let sources : List DataSource :=
    historicalYears.map (fun year =>
      { type := "historical", year := year,
        data := s.historicalData.filter (fun m => m.date.year == year) }) ++
    (if s.liveData.length > 0 then
      [{ type := "live",
         year := ((s.liveData.head?).map (fun m => m.date.year)).getD 0,
         data := s.liveData }]
     else [])
  ({ metrics := allMetrics, targets := s.targets, events := s.events,
     sources := sources }, s)

/-- `getErrors()`. -/
def getErrors (s : HarmonizerState) : List String := s.errors

/-- `clear()`: reset every accumulator. -/
def clear (_ : HarmonizerState) : HarmonizerState :=
  { historicalData := [], liveData := [], targets := [], events := [], errors := [] }

/-! ## Analytics calculators (`analytics.ts`) -/

/-- `PacingData`. -/
structure PacingData where
  currentRevenue : ℚ
  targetRevenue : ℚ
  daysPassed : Nat
  daysInMonth : Nat
  projectedRevenue : ℚ
  pacingPercentage : ℚ
  projectedPercentage : ℚ
  onTrack : Bool
  deriving DecidableEq, Repr

/-- `calculatePacing(metrics, target, referenceDate)`.  The implicit
`new Date()` default for `referenceDate` is the only wall-clock input; it is
passed explicitly here.  `daysPassed = now.getDate() ≥ 1` for every real
`Date`, so the guarded `dailyRate` division never sees `0` in the source. -/
def calculatePacing (metrics : List DailyMetrics) (target : MonthlyTarget)
    (referenceDate : YMD) : PacingData :=
  let year := referenceDate.year
  let month := referenceDate.month
  let daysInMonth := getDaysInMonth year month
  let daysPassed := referenceDate.day
  let currentRevenue := (metrics.filter (fun m =>
      m.date.month == month && m.date.year == year)).foldl
    (fun sum m => sum + m.totalRevenue) 0
  let dailyRate := if daysPassed > 0 then currentRevenue / (daysPassed : ℚ) else 0
  let projectedRevenue := dailyRate * (daysInMonth : ℚ)
  let pacingPercentage :=
    if target.revenueTarget > 0 then
      (currentRevenue / (target.revenueTarget * ((daysPassed : ℚ) / (daysInMonth : ℚ)))) * 100
    else 0
  let projectedPercentage :=
    if target.revenueTarget > 0 then (projectedRevenue / target.revenueTarget) * 100
    else 0
  { currentRevenue := currentRevenue,
    targetRevenue := target.revenueTarget,
    daysPassed := daysPassed,
    daysInMonth := daysInMonth,
    projectedRevenue := projectedRevenue,
    pacingPercentage := pacingPercentage,
    projectedPercentage := projectedPercentage,
    onTrack := decide (projectedPercentage ≥ 95) }

/-- One entry of `YoYComparison.variance`. -/
structure VarianceEntry where
  date : YMD
  revenueVariance : ℚ
  revenueVariancePercent : ℚ
  ordersVariance : ℚ
  spendVariance : ℚ
  currentRevenue : ℚ
  previousRevenue : ℚ
  deriving DecidableEq, Repr

/-- `YoYComparison`. -/
structure YoYComparison where
  currentPeriod : List DailyMetrics
  previousPeriod : List DailyMetrics
  variance : List VarianceEntry
  deriving DecidableEq, Repr

/-- The per-record variance computation of `calculateYoYComparison`.
`previous?.totalRevenue || 0` collapses both `undefined` and a stored `0` to
`0`, which coincide in `ℚ`. -/
def yoyCounterpart (historicalMetrics : List DailyMetrics) (alignByDayOfWeek : Bool)
    (current : DailyMetrics) : Option DailyMetrics :=
  if alignByDayOfWeek then
    let alignedDate := alignDateByDayOfWeek current.date
    historicalMetrics.find? (fun h =>
      h.date.year == alignedDate.year && h.date.month == alignedDate.month &&
        h.date.day == alignedDate.day)
  else
    let prevYear := current.date.year - 1
    historicalMetrics.find? (fun h =>
      h.date.year == prevYear && h.date.month == current.date.month &&
        h.date.day == current.date.day)

def varianceFor (historicalMetrics : List DailyMetrics) (alignByDayOfWeek : Bool)
    (current : DailyMetrics) : VarianceEntry :=
  let previous : Option DailyMetrics := yoyCounterpart historicalMetrics alignByDayOfWeek current
  let previousRevenue := match previous with
    | some p => p.totalRevenue
    | none => 0
  let revenueVariance := current.totalRevenue - previousRevenue
  { date := current.date,
    revenueVariance := revenueVariance,
    revenueVariancePercent :=
      if previousRevenue > 0 then (revenueVariance / previousRevenue) * 100 else 0,
    ordersVariance := current.orders - (match previous with
      | some p => p.orders
      | none => 0),
    spendVariance := current.totalSpend - (match previous with
      | some p => p.totalSpend
      | none => 0),
    currentRevenue := current.totalRevenue,
    previousRevenue := previousRevenue }

/-- `calculateYoYComparison(currentMetrics, historicalMetrics, alignByDayOfWeek)`. -/
def calculateYoYComparison (currentMetrics historicalMetrics : List DailyMetrics)
    (alignByDayOfWeek : Bool) : YoYComparison :=
  { currentPeriod := currentMetrics,
    previousPeriod := historicalMetrics,
    variance := currentMetrics.map (varianceFor historicalMetrics alignByDayOfWeek) }

/-- The in-place `existing.⟨field⟩ += m.⟨field⟩` block of `aggregateByDate`. -/
def addMetrics (existing m : DailyMetrics) : DailyMetrics :=
  { existing with
    revenueWeb := existing.revenueWeb + m.revenueWeb,
    revenueApp := existing.revenueApp + m.revenueApp,
    totalRevenue := existing.totalRevenue + m.totalRevenue,
    orders := existing.orders + m.orders,
    spendFB := existing.spendFB + m.spendFB,
    spendGoogle := existing.spendGoogle + m.spendGoogle,
    totalSpend := existing.totalSpend + m.totalSpend,
    clicksFB := existing.clicksFB + m.clicksFB,
    clicksGoogle := existing.clicksGoogle + m.clicksGoogle,
    totalClicks := existing.totalClicks + m.totalClicks,
    contributionMargin := existing.contributionMargin + m.contributionMargin }

/-- One step of the `Map`-building loop: an existing entry is summed in place
(position preserved), a new `dateString` is appended as `{...m, label: 'All'}`.
The JS `Map` never holds a duplicate key, matching the first-match update. -/
def aggStep (byDate : List (String × DailyMetrics)) (m : DailyMetrics) :
    List (String × DailyMetrics) :=
  if (byDate.find? (fun p => p.1 == m.dateString)).isSome then
    byDate.map (fun p => if p.1 == m.dateString then (p.1, addMetrics p.2 m) else p)
  else byDate ++ [(m.dateString, { m with label := "All" })]

/-- The final derived-metric recomputation of `aggregateByDate`. -/
def recomputeDerived (m : DailyMetrics) : DailyMetrics :=
  { m with
    aov := if m.orders > 0 then m.totalRevenue / m.orders else 0,
    mer := if m.totalRevenue > 0 then m.totalSpend / m.totalRevenue else 0,
    roasFB := if m.spendFB > 0 then (m.revenueWeb * (6/10)) / m.spendFB else 0,
    roasGoogle := if m.spendGoogle > 0 then (m.revenueWeb * (4/10)) / m.spendGoogle else 0 }

/-- `aggregateByDate(metrics)`: collapse all labels per date into one `"All"`
record (insertion-ordered `Map`), then recompute the derived ratios from the
summed totals. -/
def aggregateByDate (metrics : List DailyMetrics) : List DailyMetrics :=
  (metrics.foldl aggStep []).map (fun p => recomputeDerived p.2)

/-! ## Spec-side refinement definitions and shared concrete inputs -/

/-- The spec's own description of `parseDecimal` (§4.1), written from its words:
strip every grouping period, replace the comma decimal separator with a
period, parse; empty, undefined and unparsable input give `0`. -/
def parseDecimalSpec (value : Option String) : ℚ :=
  match value with
  | none => 0
  | some s =>
    match jsParseFloat (String.mk (replaceFirstComma (((jsTrim s).data).filter (fun c => c ≠ '.')))) with
    | none => 0
    | some q => q

/-- A sheet row whose `Orders_App` exceeds `Orders`. -/
def rowNegOrders : RawRow :=
  [("Date", "4-2-2026"), ("Label", "X"), ("Orders", "2"), ("Orders_App", "5")]

/-- The record `transformSheetRow` produces for `rowNegOrders`. -/
def rowNegOrdersOut : TransformedSheetRow :=
  { date := ⟨2026, 1, 4⟩,
    dateString := "2026-02-04",
    brand := "X",
    revenueWeb := 0, revenueApp := 0, totalRevenue := 0,
    ordersTotal := 2, ordersApp := 5, ordersWeb := -3,
    conversionsFb := 0, conversionsGoogle := 0, totalConversions := 0,
    spendFb := 0, spendGoogle := 0, totalSpend := 0,
    aov := 0, mer := 0, contributionMargin := 0,
    dayOfWeek := 3, weekOfMonth := 1, monthDay := 4 }

/-- Target rows used to exhibit the replace-not-append behavior. -/
def rowTargetJan : RawRow := [("Month", "1-2025"), ("Rev_target", "100")]

def rowTargetFeb : RawRow := [("Month", "2-2025"), ("Rev_target", "200")]

/-- A concrete current-period metric for the YoY edge case. -/
def metricC5 : DailyMetrics :=
  { date := ⟨2026, 0, 5⟩, dateString := "2026-01-05", label := "A",
    revenueWeb := 60, revenueApp := 40, totalRevenue := 100,
    orders := 4, aov := 25,
    spendFB := 10, spendGoogle := 10, totalSpend := 20,
    clicksFB := 5, clicksGoogle := 5, totalClicks := 10,
    mer := 1/5, contributionMargin := 80, roasFB := 18/5, roasGoogle := 12/5,
    dayOfWeek := 1, weekOfMonth := 2, monthDay := 5 }

/-- The zero target / empty metrics instance violating the pacing claim. -/
def targetC8 : MonthlyTarget :=
  { month := "2025-01", label := "All", revenueTarget := 0, ordersTarget := 0,
    merTarget := 1/5 }

/-- A one-record January 2025 period hitting its 100-revenue target. -/
def metricC8 : DailyMetrics :=
  { date := ⟨2025, 0, 10⟩, dateString := "2025-01-10", label := "A",
    revenueWeb := 60, revenueApp := 40, totalRevenue := 100,
    orders := 4, aov := 25,
    spendFB := 10, spendGoogle := 10, totalSpend := 20,
    clicksFB := 5, clicksGoogle := 5, totalClicks := 10,
    mer := 1/5, contributionMargin := 80, roasFB := 18/5, roasGoogle := 12/5,
    dayOfWeek := 5, weekOfMonth := 2, monthDay := 10 }

def targetC8W : MonthlyTarget :=
  { month := "2025-01", label := "All", revenueTarget := 100, ordersTarget := 4,
    merTarget := 1/5 }

/-- A target row with an unparsable (but non-empty) month cell. -/
def rowTargetGarbage : RawRow := [("Month", "garbage"), ("Rev_target", "100")]

/-- The end-to-end target row of the claim: month `"1-2025"`, header
`Rev_target`, European-formatted value. -/
def rowTargetC6 : RawRow := [("Month", "1-2025"), ("Rev_target", "1.633,50")]

/-! ### Aggregation lemmas (C9) -/

/-- `Map.get(key)` on the insertion-ordered association list. -/
def lookupKey (k : String) (acc : List (String × DailyMetrics)) : Option DailyMetrics :=
  (acc.find? (fun p => p.1 == k)).map (fun p => p.2)

/-- The value a getter sees for a key (0 when absent). -/
def gval (g : DailyMetrics → ℚ) (k : String) (acc : List (String × DailyMetrics)) : ℚ :=
  ((lookupKey k acc).map g).getD 0

/-- The sum of a getter over the records of one date key. -/
def sumKey (g : DailyMetrics → ℚ) (k : String) (l : List DailyMetrics) : ℚ :=
  ((l.filter (fun m => m.dateString == k)).map g).sum

/-- The eleven additive fields of `aggregateByDate`. -/
def addGetters : List (DailyMetrics → ℚ) :=
  [fun m => m.revenueWeb, fun m => m.revenueApp, fun m => m.totalRevenue,
   fun m => m.orders, fun m => m.spendFB, fun m => m.spendGoogle,
   fun m => m.totalSpend, fun m => m.clicksFB, fun m => m.clicksGoogle,
   fun m => m.totalClicks, fun m => m.contributionMargin]

def mAgg1 : DailyMetrics :=
  { date := ⟨2025, 0, 10⟩, dateString := "2025-01-10", label := "A",
    revenueWeb := 60, revenueApp := 40, totalRevenue := 100,
    orders := 4, aov := 25,
    spendFB := 10, spendGoogle := 10, totalSpend := 20,
    clicksFB := 5, clicksGoogle := 5, totalClicks := 10,
    mer := 1/5, contributionMargin := 80, roasFB := 18/5, roasGoogle := 12/5,
    dayOfWeek := 5, weekOfMonth := 2, monthDay := 10 }

def mAgg2 : DailyMetrics :=
  { mAgg1 with label := "B", revenueWeb := 30, revenueApp := 20, totalRevenue := 50, orders := 2 }

def mAgg3 : DailyMetrics :=
  { mAgg1 with label := "C", revenueWeb := 12, revenueApp := 8, totalRevenue := 20, orders := 1 }

/-- A gap-fill input record: January 10, 2025, label `"A"`, all measures 0. -/
def mDup1 : DailyMetrics :=
  { date := ⟨2025, 0, 10⟩, dateString := "2025-01-10", label := "A",
    revenueWeb := 0, revenueApp := 0, totalRevenue := 0,
    orders := 0, aov := 0,
    spendFB := 0, spendGoogle := 0, totalSpend := 0,
    clicksFB := 0, clicksGoogle := 0, totalClicks := 0,
    mer := 0, contributionMargin := 0, roasFB := 0, roasGoogle := 0,
    dayOfWeek := 5, weekOfMonth := 2, monthDay := 10 }

/-- A second record with the same `(dateString, label)` key as `mDup1`. -/
def mDup2 : DailyMetrics := { mDup1 with orders := 3 }

/-- A record sharing `mDup1`'s date under a different label. -/
def mDupB : DailyMetrics := { mDup1 with label := "B" }

/-- Harmonizer state holding two records with an identical composite key. -/
def stateC1 : HarmonizerState :=
  { historicalData := [mDup1, mDup2], liveData := [], targets := [], events := [],
    errors := [] }

/-- Harmonizer state holding two same-day records with distinct labels. -/
def stateC1W : HarmonizerState :=
  { historicalData := [mDup1, mDupB], liveData := [], targets := [], events := [],
    errors := [] }

/-! ## Theorems -/

/-! ### Calendar lemmas -/

theorem getDaysInMonth_pos (y m : Nat) : 28 ≤ getDaysInMonth y m := by
  unfold getDaysInMonth
  have : m % 12 < 12 := Nat.mod_lt _ (by omega)
  interval_cases h : m % 12 <;> simp_all <;> split <;> omega

theorem daysBeforeMonth_succ (y m : Nat) (hm : m < 11) :
    daysBeforeMonth y (m + 1) = daysBeforeMonth y m + getDaysInMonth y m := by
  interval_cases m <;>
    simp [daysBeforeMonth, getDaysInMonth] <;> split <;> simp

theorem daysBeforeMonth_last (y : Nat) :
    daysBeforeMonth y 11 + getDaysInMonth y 11 = 365 + (if isLeap y then 1 else 0) := by
  simp [daysBeforeMonth, getDaysInMonth]
  split <;> simp

theorem leapsBefore_succ (y : Nat) (hy : 1 ≤ y) :
    leapsBefore (y + 1) = leapsBefore y + (if isLeap y then 1 else 0) := by
  unfold leapsBefore isLeap
  by_cases h4 : y % 4 = 0 <;> by_cases h100 : y % 100 = 0 <;> by_cases h400 : y % 400 = 0 <;>
    simp [h4, h100, h400] <;> omega

/-- The day-by-day iteration advances the linear day index by exactly one. -/
theorem dayNumber_nextDay (d : YMD) (hv : validYMD d) :
    dayNumber (nextDay d) = dayNumber d + 1 := by
  obtain ⟨h1, _, hm, hd1, hd2⟩ := hv
  unfold nextDay
  by_cases hlt : d.day < getDaysInMonth d.year d.month
  · simp [hlt, dayNumber]; omega
  · have hde : d.day = getDaysInMonth d.year d.month := by omega
    by_cases hm11 : d.month < 11
    · simp [hlt, hm11, dayNumber, daysBeforeMonth_succ d.year d.month hm11]
      omega
    · have h11 : d.month = 11 := by omega
      have hdim : getDaysInMonth d.year 11 = 31 := by simp [getDaysInMonth]
      have hl := daysBeforeMonth_last d.year
      have hs := leapsBefore_succ d.year h1
      have hb0 : daysBeforeMonth (d.year + 1) 0 = 0 := by simp [daysBeforeMonth]
      rw [hdim] at hl
      rw [h11] at hde hlt
      simp only [if_neg hlt, if_neg (by omega : ¬ (11:Nat) < 11), dayNumber, h11]
      by_cases hL : isLeap d.year <;> simp [hL] at hl hs <;> rw [hb0, hs] <;> omega

theorem validYMD_nextDay (d : YMD) (hv : validYMD d) (hy : d.year ≤ 9998) :
    validYMD (nextDay d) := by
  obtain ⟨h1, h2, hm, hd1, hd2⟩ := hv
  have hpos1 : 1 ≤ getDaysInMonth d.year (d.month + 1) :=
    le_trans (by norm_num) (getDaysInMonth_pos _ _)
  have hpos2 : 1 ≤ getDaysInMonth (d.year + 1) 0 :=
    le_trans (by norm_num) (getDaysInMonth_pos _ _)
  unfold nextDay validYMD
  split
  · exact ⟨h1, h2, hm, by show 1 ≤ d.day + 1; omega,
      by show d.day + 1 ≤ getDaysInMonth d.year d.month; omega⟩
  · split
    · exact ⟨h1, h2, by show d.month + 1 < 12; omega, le_refl 1, hpos1⟩
    · exact ⟨by show 1 ≤ d.year + 1; omega, by show d.year + 1 ≤ 9999; omega,
        by show (0:Nat) < 12; omega, le_refl 1, hpos2⟩

/-- Within a valid month, the offset into the year is bounded by the year length. -/
theorem daysBeforeMonth_add_day_le (y m day : Nat) (hm : m < 12)
    (hday : day ≤ getDaysInMonth y m) :
    daysBeforeMonth y m + day ≤ 365 + (if isLeap y then 1 else 0) := by
  interval_cases m <;>
    by_cases hL : isLeap y <;>
      simp [daysBeforeMonth, getDaysInMonth, hL] at * <;> omega

theorem daysBeforeMonth_mono (y : Nat) {m m' : Nat} (h : m ≤ m') (h' : m' < 12) :
    daysBeforeMonth y m ≤ daysBeforeMonth y m' := by
  induction m' with
  | zero =>
    have hm0 : m = 0 := by omega
    simp [hm0]
  | succ n ih =>
    rcases Nat.lt_or_ge m (n + 1) with hlt | hge
    · calc daysBeforeMonth y m ≤ daysBeforeMonth y n := ih (by omega) (by omega)
        _ ≤ daysBeforeMonth y (n + 1) := by
            rw [daysBeforeMonth_succ y n (by omega)]; omega
    · have hmn : m = n + 1 := by omega
      rw [hmn]

/-- Strict growth of the day index across year starts (leap-day aware). -/
theorem yearStart_add_le (y₁ y₂ : Nat) (h1 : 1 ≤ y₁) (h : y₁ < y₂) :
    365 * (y₁ - 1) + leapsBefore y₁ + 365 + (if isLeap y₁ then 1 else 0) ≤
      365 * (y₂ - 1) + leapsBefore y₂ := by
  induction y₂ with
  | zero => omega
  | succ n ih =>
    rcases Nat.lt_or_ge y₁ n with hlt | hge
    · have hn : 1 ≤ n := by omega
      have hls := leapsBefore_succ n hn
      have hih := ih hlt
      split at hls <;> omega
    · have hyn : y₁ = n := by omega
      subst hyn
      have hls := leapsBefore_succ y₁ h1
      by_cases hL : isLeap y₁ <;> simp [hL] at hls ⊢ <;> omega

/-- Dates of a strictly earlier year have strictly smaller day index. -/
theorem dayNumber_lt_of_year_lt (d₁ d₂ : YMD) (h₁ : validYMD d₁) (h₂ : validYMD d₂)
    (hy : d₁.year < d₂.year) : dayNumber d₁ < dayNumber d₂ := by
  obtain ⟨a1, a2, a3, a4, a5⟩ := h₁
  obtain ⟨b1, b2, b3, b4, b5⟩ := h₂
  have hin := daysBeforeMonth_add_day_le d₁.year d₁.month d₁.day a3 a5
  have hys := yearStart_add_le d₁.year d₂.year a1 hy
  unfold dayNumber
  by_cases hL : isLeap d₁.year <;> simp [hL] at hin hys <;> omega

/-- The day index is injective on valid dates (no two valid dates share it). -/
theorem dayNumber_inj (d₁ d₂ : YMD) (h₁ : validYMD d₁) (h₂ : validYMD d₂)
    (he : dayNumber d₁ = dayNumber d₂) : d₁ = d₂ := by
  have hy : d₁.year = d₂.year := by
    rcases Nat.lt_trichotomy d₁.year d₂.year with h | h | h
    · exact absurd (dayNumber_lt_of_year_lt d₁ d₂ h₁ h₂ h) (by omega)
    · exact h
    · exact absurd (dayNumber_lt_of_year_lt d₂ d₁ h₂ h₁ h) (by omega)
  obtain ⟨a1, a2, a3, a4, a5⟩ := h₁
  obtain ⟨b1, b2, b3, b4, b5⟩ := h₂
  unfold dayNumber at he
  rw [hy] at he a5
  have hm : d₁.month = d₂.month := by
    rcases Nat.lt_trichotomy d₁.month d₂.month with h | h | h
    · exfalso
      have hs := daysBeforeMonth_succ d₂.year d₁.month (by omega)
      have hmono := daysBeforeMonth_mono d₂.year (show d₁.month + 1 ≤ d₂.month by omega) b3
      omega
    · exact h
    · exfalso
      have hs := daysBeforeMonth_succ d₂.year d₂.month (by omega)
      have hmono := daysBeforeMonth_mono d₂.year (show d₂.month + 1 ≤ d₁.month by omega) a3
      omega
  have hd : d₁.day = d₂.day := by
    rw [hm] at he
    omega
  cases d₁; cases d₂; simp_all

theorem iterateDays_length (d : YMD) (k : Nat) : (iterateDays d k).length = k := by
  induction k generalizing d with
  | zero => rfl
  | succ n ih => simp [iterateDays, ih]

/-- The day-iteration enumerates exactly the valid dates whose day index lies
in the half-open interval starting at `d`, as long as the iteration stays
below a valid anchor date. -/
theorem iterateDays_mem_iff (maxD : YMD) (hq : validYMD maxD) (hmy : maxD.year ≤ 9998) :
    ∀ (k : Nat) (d : YMD), validYMD d → dayNumber d + k ≤ dayNumber maxD + 1 →
      ∀ x, x ∈ iterateDays d k ↔
        (validYMD x ∧ dayNumber d ≤ dayNumber x ∧ dayNumber x < dayNumber d + k) := by
  intro k
  induction k with
  | zero =>
    intro d hv hb x
    simp [iterateDays]
  | succ n ih =>
    intro d hv hb x
    have hdy : d.year ≤ 9998 := by
      by_contra hgt
      have hlt : maxD.year < d.year := by omega
      have := dayNumber_lt_of_year_lt maxD d hq hv hlt
      omega
    have hvn := validYMD_nextDay d hv hdy
    have hdn := dayNumber_nextDay d hv
    have hb' : dayNumber (nextDay d) + n ≤ dayNumber maxD + 1 := by omega
    have ihx := ih (nextDay d) hvn hb' x
    simp only [iterateDays, List.mem_cons]
    constructor
    · rintro (rfl | hx')
      · exact ⟨hv, le_refl _, by omega⟩
      · have hf := ihx.mp hx'
        exact ⟨hf.1, by omega, by omega⟩
    · rintro ⟨hvx, hle, hlt⟩
      by_cases hxd : dayNumber x = dayNumber d
      · exact Or.inl (dayNumber_inj x d hvx hv hxd)
      · exact Or.inr (ihx.mpr ⟨hvx, by omega, by omega⟩)

/-- No date repeats in the day iteration. -/
theorem iterateDays_nodup (maxD : YMD) (hq : validYMD maxD) (hmy : maxD.year ≤ 9998) :
    ∀ (k : Nat) (d : YMD), validYMD d → dayNumber d + k ≤ dayNumber maxD + 1 →
      (iterateDays d k).Nodup := by
  intro k
  induction k with
  | zero =>
    intro d _ _
    simp [iterateDays]
  | succ n ih =>
    intro d hv hb
    have hdy : d.year ≤ 9998 := by
      by_contra hgt
      have hlt : maxD.year < d.year := by omega
      have := dayNumber_lt_of_year_lt maxD d hq hv hlt
      omega
    have hvn := validYMD_nextDay d hv hdy
    have hdn := dayNumber_nextDay d hv
    have hb' : dayNumber (nextDay d) + n ≤ dayNumber maxD + 1 := by omega
    refine List.nodup_cons.mpr ⟨?_, ih (nextDay d) hvn hb'⟩
    intro hmem
    have := (iterateDays_mem_iff maxD hq hmy n (nextDay d) hvn hb' d).mp hmem
    omega

theorem getDaysInMonth_le (y m : Nat) : getDaysInMonth y m ≤ 31 := by
  unfold getDaysInMonth
  have : m % 12 < 12 := Nat.mod_lt _ (by omega)
  interval_cases h : m % 12 <;> simp_all <;> split <;> omega

theorem charOfNat_digit_inj :
    ∀ a, a < 10 → ∀ b, b < 10 → Char.ofNat (48 + a) = Char.ofNat (48 + b) → a = b := by
  decide

theorem isoString_inj (d₁ d₂ : YMD) (h₁ : validYMD d₁) (h₂ : validYMD d₂)
    (he : isoString d₁ = isoString d₂) : d₁ = d₂ := by
  obtain ⟨a1, a2, a3, a4, a5⟩ := h₁
  obtain ⟨b1, b2, b3, b4, b5⟩ := h₂
  have ha31 : d₁.day ≤ 31 := le_trans a5 (getDaysInMonth_le _ _)
  have hb31 : d₂.day ≤ 31 := le_trans b5 (getDaysInMonth_le _ _)
  unfold isoString pad4 pad2 digitChar at he
  rw [String.ext_iff] at he
  simp only [List.cons_append, List.nil_append, List.cons.injEq, and_true, true_and] at he
  obtain ⟨e1, e2, e3, e4, e5, e6, e7, e8⟩ := he
  have q1 := charOfNat_digit_inj _ (by omega) _ (by omega) e1
  have q2 := charOfNat_digit_inj _ (by omega) _ (by omega) e2
  have q3 := charOfNat_digit_inj _ (by omega) _ (by omega) e3
  have q4 := charOfNat_digit_inj _ (by omega) _ (by omega) e4
  have q5 := charOfNat_digit_inj _ (by omega) _ (by omega) e5
  have q6 := charOfNat_digit_inj _ (by omega) _ (by omega) e6
  have q7 := charOfNat_digit_inj _ (by omega) _ (by omega) e7
  have q8 := charOfNat_digit_inj _ (by omega) _ (by omega) e8
  have hy : d₁.year = d₂.year := by omega
  have hm : d₁.month = d₂.month := by omega
  have hd : d₁.day = d₂.day := by omega
  cases d₁; cases d₂
  simp only [YMD.mk.injEq]
  exact ⟨hy, hm, hd⟩

theorem isoString_data_length (d : YMD) : (isoString d).data.length = 10 := by
  simp [isoString, pad4, pad2]

theorem isoString_length (d : YMD) : (isoString d).length = 10 := by
  simp [isoString, String.length, pad4, pad2]

/-- Keys built from canonical ISO date strings separate into date and label. -/
theorem mkKey_iso_inj (d₁ d₂ : YMD) (l₁ l₂ : String)
    (h₁ : validYMD d₁) (h₂ : validYMD d₂)
    (he : mkKey (isoString d₁) l₁ = mkKey (isoString d₂) l₂) : d₁ = d₂ ∧ l₁ = l₂ := by
  have hdata : ((isoString d₁).data ++ ('-' :: [])) ++ l₁.data =
      ((isoString d₂).data ++ ('-' :: [])) ++ l₂.data := by
    have := congrArg String.data he
    simpa [mkKey, String.data_append, List.append_assoc] using this
  have hlen : ((isoString d₁).data ++ ('-' :: [])).length =
      ((isoString d₂).data ++ ('-' :: [])).length := by
    simp only [List.length_append, List.length_cons, List.length_nil, isoString_data_length]
  obtain ⟨hpre, hsuf⟩ := List.append_inj hdata hlen
  have hiso : isoString d₁ = isoString d₂ := by
    apply String.ext
    have hlen2 : (isoString d₁).data.length = (isoString d₂).data.length := by
      simp only [isoString_data_length]
    exact (List.append_inj hpre hlen2).1
  exact ⟨isoString_inj d₁ d₂ h₁ h₂ hiso, String.ext hsuf⟩

theorem jsDedup_go_nodup {α : Type} [DecidableEq α] (l : List α) :
    ∀ acc, acc.Nodup → (l.foldl (fun acc x => if x ∈ acc then acc else acc ++ [x]) acc).Nodup := by
  induction l with
  | nil => intro acc h; exact h
  | cons x xs ih =>
    intro acc h
    by_cases hx : x ∈ acc
    · simpa [hx] using ih acc h
    · have : (acc ++ [x]).Nodup := by
        simp [List.nodup_append, h, hx]
      simpa [hx] using ih _ this

theorem jsDedup_nodup {α : Type} [DecidableEq α] (l : List α) : (jsDedup l).Nodup :=
  jsDedup_go_nodup l [] List.nodup_nil

theorem jsDedup_go_mem {α : Type} [DecidableEq α] (l : List α) :
    ∀ acc x, x ∈ l.foldl (fun acc x => if x ∈ acc then acc else acc ++ [x]) acc ↔
      x ∈ acc ∨ x ∈ l := by
  induction l with
  | nil => intro acc x; simp
  | cons y ys ih =>
    intro acc x
    by_cases hy : y ∈ acc
    · simp only [List.foldl_cons, if_pos hy, ih, List.mem_cons]
      constructor
      · rintro (h | h)
        · exact Or.inl h
        · exact Or.inr (Or.inr h)
      · rintro (h | rfl | h)
        · exact Or.inl h
        · exact Or.inl hy
        · exact Or.inr h
    · simp only [List.foldl_cons, if_neg hy, ih, List.mem_append, List.mem_singleton,
        List.mem_cons]
      tauto

theorem jsDedup_mem {α : Type} [DecidableEq α] (l : List α) (x : α) : x ∈ jsDedup l ↔ x ∈ l := by
  unfold jsDedup
  rw [jsDedup_go_mem]
  simp

/-! ### Literal-evaluation helper lemmas (digit characters) -/

theorem digitVal_c0 : digitVal '0' = 0 := by decide

theorem digitVal_c1 : digitVal '1' = 1 := by decide

theorem digitVal_c2 : digitVal '2' = 2 := by decide

theorem digitVal_c3 : digitVal '3' = 3 := by decide

theorem digitVal_c4 : digitVal '4' = 4 := by decide

theorem digitVal_c5 : digitVal '5' = 5 := by decide

theorem digitVal_c6 : digitVal '6' = 6 := by decide

theorem digitVal_c7 : digitVal '7' = 7 := by decide

theorem digitVal_c8 : digitVal '8' = 8 := by decide

theorem digitVal_c9 : digitVal '9' = 9 := by decide

theorem digitChar_e0 : digitChar 0 = '0' := by decide

theorem digitChar_e1 : digitChar 1 = '1' := by decide

theorem digitChar_e2 : digitChar 2 = '2' := by decide

theorem digitChar_e3 : digitChar 3 = '3' := by decide

theorem digitChar_e4 : digitChar 4 = '4' := by decide

theorem digitChar_e5 : digitChar 5 = '5' := by decide

theorem digitChar_e6 : digitChar 6 = '6' := by decide

theorem digitChar_e7 : digitChar 7 = '7' := by decide

theorem digitChar_e8 : digitChar 8 = '8' := by decide

theorem digitChar_e9 : digitChar 9 = '9' := by decide

/-! ## Claim theorems -/

/-- **C7.** `parseEuropeanNumber` (the spec's `parseDecimal`) strips all
periods, replaces the comma decimal separator with a period and parses, with
empty/undefined/unparsable inputs yielding `0` (total, hence never throws):
the code equals the spec-side description on every input, and the canonical
values evaluate as claimed. -/
theorem parseDecimal_spec_C7 :
    parseEuropeanNumber none = 0 ∧
    parseEuropeanNumber (some "") = 0 ∧
    parseEuropeanNumber (some "1.633,50") = (1633.5 : ℚ) ∧
    ∀ v, parseEuropeanNumber v = parseDecimalSpec v := by
  refine ⟨rfl, by norm_num [parseEuropeanNumber, jsTrim, removeDots, replaceFirstComma, jsParseFloat,
    parseFloatCore, splitSign, takeDigits, isDigitCh, isWS, digitsVal, parseExp,
    digitVal_c0, digitVal_c1, digitVal_c2, digitVal_c3, digitVal_c4, digitVal_c5,
    digitVal_c6, digitVal_c7, digitVal_c8, digitVal_c9], by norm_num +decide [parseEuropeanNumber, jsTrim, removeDots, replaceFirstComma, jsParseFloat,
    parseFloatCore, splitSign, takeDigits, isDigitCh, isWS, digitsVal, parseExp,
    digitVal_c0, digitVal_c1, digitVal_c2, digitVal_c3, digitVal_c4, digitVal_c5,
    digitVal_c6, digitVal_c7, digitVal_c8, digitVal_c9], ?_⟩
  intro v
  match v with
  | none => rfl
  | some s =>
    by_cases hs : s = ""
    · simp [hs, parseEuropeanNumber, parseDecimalSpec, jsTrim, jsParseFloat,
        replaceFirstComma, parseFloatCore, splitSign, takeDigits, digitsVal]
    · simp only [parseEuropeanNumber, parseDecimalSpec, if_neg hs, removeDots]

/-- **C10.** `transformSheetRow` computes `ordersWeb = ordersTotal − ordersApp`
with no lower bound: every valid output satisfies the equation, and a row whose
`Orders_App` exceeds `Orders` still yields a valid record, with negative
`ordersWeb`. -/
theorem ordersWeb_no_floor_C10 :
    (∀ raw row, transformSheetRow raw = .valid row →
      row.ordersWeb = row.ordersTotal - row.ordersApp) ∧
    (∃ row, transformSheetRow rowNegOrders = .valid row ∧
      row.ordersApp > row.ordersTotal ∧ row.ordersWeb < 0) := by
  constructor
  · intro raw row h
    unfold transformSheetRow at h
    split at h
    · exact absurd h (by simp)
    · split at h
      · exact absurd h (by simp)
      · rw [SheetRowResult.valid.injEq] at h
        subst h
        rfl
  · refine ⟨rowNegOrdersOut, ?_, ?_, ?_⟩ <;>
      norm_num +decide [rowNegOrders, rowNegOrdersOut, parseEuropeanNumber, jsTrim, removeDots, replaceFirstComma, jsParseFloat,
    parseFloatCore, splitSign, takeDigits, isDigitCh, isWS, digitsVal, parseExp,
    digitVal_c0, digitVal_c1, digitVal_c2, digitVal_c3, digitVal_c4, digitVal_c5,
    digitVal_c6, digitVal_c7, digitVal_c8, digitVal_c9,
    transformSheetRow, isEmptyRow, getField, jsOrStr, jsOrDefault, parseEuropeanDate,
    parseDMY, parseISO, normSeps, isoString, pad4, pad2, dayOfWeekYMD, dayNumber,
    leapsBefore, daysBeforeMonth, getDaysInMonth, isLeap, getWeekOfMonth,
    digitChar_e0, digitChar_e1, digitChar_e2, digitChar_e3, digitChar_e4, digitChar_e5,
    digitChar_e6, digitChar_e7, digitChar_e8, digitChar_e9]

/-- **C10 witness.** The general equation applied at the concrete over-app row. -/
theorem ordersWeb_no_floor_C10_witness :
    ∃ row, transformSheetRow rowNegOrders = SheetRowResult.valid row ∧
      row.ordersWeb = row.ordersTotal - row.ordersApp :=
  ⟨rowNegOrdersOut,
   by norm_num +decide [rowNegOrders, rowNegOrdersOut, parseEuropeanNumber, jsTrim, removeDots, replaceFirstComma, jsParseFloat,
    parseFloatCore, splitSign, takeDigits, isDigitCh, isWS, digitsVal, parseExp,
    digitVal_c0, digitVal_c1, digitVal_c2, digitVal_c3, digitVal_c4, digitVal_c5,
    digitVal_c6, digitVal_c7, digitVal_c8, digitVal_c9,
    transformSheetRow, isEmptyRow, getField, jsOrStr, jsOrDefault, parseEuropeanDate,
    parseDMY, parseISO, normSeps, isoString, pad4, pad2, dayOfWeekYMD, dayNumber,
    leapsBefore, daysBeforeMonth, getDaysInMonth, isLeap, getWeekOfMonth,
    digitChar_e0, digitChar_e1, digitChar_e2, digitChar_e3, digitChar_e4, digitChar_e5,
    digitChar_e6, digitChar_e7, digitChar_e8, digitChar_e9],
   ordersWeb_no_floor_C10.1 rowNegOrders _
     (by norm_num +decide [rowNegOrders, rowNegOrdersOut, parseEuropeanNumber, jsTrim, removeDots, replaceFirstComma, jsParseFloat,
    parseFloatCore, splitSign, takeDigits, isDigitCh, isWS, digitsVal, parseExp,
    digitVal_c0, digitVal_c1, digitVal_c2, digitVal_c3, digitVal_c4, digitVal_c5,
    digitVal_c6, digitVal_c7, digitVal_c8, digitVal_c9,
    transformSheetRow, isEmptyRow, getField, jsOrStr, jsOrDefault, parseEuropeanDate,
    parseDMY, parseISO, normSeps, isoString, pad4, pad2, dayOfWeekYMD, dayNumber,
    leapsBefore, daysBeforeMonth, getDaysInMonth, isLeap, getWeekOfMonth,
    digitChar_e0, digitChar_e1, digitChar_e2, digitChar_e3, digitChar_e4, digitChar_e5,
    digitChar_e6, digitChar_e7, digitChar_e8, digitChar_e9])⟩

/-- **C4.** `harmonize` leaves every accumulator unchanged, and a second call
on the resulting state returns the same snapshot (idempotent and side-effect
free); `lastUpdated` (wall clock) is outside the model and outside the claim. -/
theorem harmonize_pure_C4 (s : HarmonizerState) (fillMissing : Bool) :
    (harmonize s fillMissing).2 = s ∧
    (harmonize ((harmonize s fillMissing).2) fillMissing).1 = (harmonize s fillMissing).1 ∧
    (harmonize ((harmonize s fillMissing).2) fillMissing).1.metrics = (harmonize s fillMissing).1.metrics ∧
    (harmonize ((harmonize s fillMissing).2) fillMissing).1.targets = (harmonize s fillMissing).1.targets ∧
    (harmonize ((harmonize s fillMissing).2) fillMissing).1.events = (harmonize s fillMissing).1.events ∧
    (harmonize ((harmonize s fillMissing).2) fillMissing).1.sources = (harmonize s fillMissing).1.sources :=
  ⟨rfl, rfl, rfl, rfl, rfl, rfl⟩

/-- **C3 counterexample.** After `addTargets` is called a second time, the
target parsed by the first call (month key `2025-01`) is no longer in the
accumulator: `addTargets` replaces rather than appends, contradicting the
claim that rows added by an earlier call of the same kind are still present. -/
theorem addTargets_replaces_C3_counterexample :
    ((addTargets emptyHarmonizer [rowTargetJan]).1.targets.map (fun t => t.month)) =
      ["2025-01"] ∧
    ((addTargets (addTargets emptyHarmonizer [rowTargetJan]).1 [rowTargetFeb]).1.targets.map
      (fun t => t.month)) = ["2025-02"] ∧
    "2025-01" ∉ ((addTargets (addTargets emptyHarmonizer [rowTargetJan]).1
      [rowTargetFeb]).1.targets.map (fun t => t.month)) := by
  refine ⟨?_, ?_, ?_⟩ <;> decide

/-- **C3 (amended).** `addHistoricalData` appends to its accumulator (earlier
rows remain), while `addLiveDataEuropean`, `addLiveData`, `addTargets` and
`addEvents` replace theirs with the newest batch — the replaced accumulators do
not depend on the prior state at all.  Every operation returns a
`{success, errors}` summary and, being total, never throws for data-quality
issues. -/
theorem addBatch_accumulators_C3 :
    (∀ s rows year, ∃ t,
      (addHistoricalData s rows year).1.historicalData = s.historicalData ++ t) ∧
    (∀ s₁ s₂ rows,
      (addLiveDataEuropean s₁ rows).1.liveData = (addLiveDataEuropean s₂ rows).1.liveData) ∧
    (∀ s₁ s₂ rows, (addLiveData s₁ rows).1.liveData = (addLiveData s₂ rows).1.liveData) ∧
    (∀ s₁ s₂ rows, (addTargets s₁ rows).1.targets = (addTargets s₂ rows).1.targets) ∧
    (∀ s₁ s₂ rows, (addEvents s₁ rows).1.events = (addEvents s₂ rows).1.events) :=
  ⟨fun _ _ _ => ⟨_, rfl⟩, fun _ _ _ => rfl, fun _ _ _ => rfl, fun _ _ _ => rfl,
   fun _ _ _ => rfl⟩

/-- **C5.** The YoY comparison emits exactly one variance entry per
current-period record, positionally (order-preserving), each carrying the
record's date and revenue; and when no counterpart is found the baseline is
zero with `revenueVariancePercent = 0` (no division by zero). -/
theorem yoy_variance_C5 (cur hist : List DailyMetrics) (align : Bool) :
    (calculateYoYComparison cur hist align).variance.length = cur.length ∧
    ∀ (i : Nat) (m : DailyMetrics), cur[i]? = some m →
      (calculateYoYComparison cur hist align).variance[i]? =
        some (varianceFor hist align m) ∧
      (varianceFor hist align m).date = m.date ∧
      (varianceFor hist align m).currentRevenue = m.totalRevenue ∧
      (yoyCounterpart hist align m = none →
        (varianceFor hist align m).previousRevenue = 0 ∧
        (varianceFor hist align m).revenueVariancePercent = 0 ∧
        (varianceFor hist align m).revenueVariance = m.totalRevenue) := by
  constructor
  · simp [calculateYoYComparison]
  · intro i m hm
    refine ⟨?_, rfl, rfl, ?_⟩
    · simp [calculateYoYComparison, List.getElem?_map, hm]
    · intro hnone
      unfold varianceFor
      rw [hnone]
      refine ⟨rfl, ?_, ?_⟩
      · simp
      · simp

/-- **C5 witness.** The theorem applied to the one-record current period
`[metricC5]` with an empty reference period: the single entry is computed
against the zero baseline with percent variance `0`. -/
theorem yoy_variance_C5_witness :
    (calculateYoYComparison [metricC5] [] true).variance.length = 1 ∧
    (varianceFor [] true metricC5).previousRevenue = 0 ∧
    (varianceFor [] true metricC5).revenueVariancePercent = 0 ∧
    (varianceFor [] true metricC5).revenueVariance = metricC5.totalRevenue := by
  have h := yoy_variance_C5 [metricC5] [] true
  have h2 := (h.2 0 metricC5 rfl).2.2.2 rfl
  exact ⟨h.1, h2.1, h2.2.1, h2.2.2⟩

/-- **C8 counterexample.** With the zero revenue target and no metrics, on the
last day of the month `daysPassed = daysInMonth` and
`currentRevenue = revenueTarget` both hold, yet both percentages are `0` (the
`revenueTarget > 0` guard short-circuits them) and `onTrack` is `false` — the
claim as stated fails at a zero target. -/
theorem pacing_zero_target_C8_counterexample :
    (calculatePacing [] targetC8 ⟨2025, 0, 31⟩).daysPassed =
      (calculatePacing [] targetC8 ⟨2025, 0, 31⟩).daysInMonth ∧
    (calculatePacing [] targetC8 ⟨2025, 0, 31⟩).currentRevenue =
      (calculatePacing [] targetC8 ⟨2025, 0, 31⟩).targetRevenue ∧
    (calculatePacing [] targetC8 ⟨2025, 0, 31⟩).pacingPercentage = 0 ∧
    (calculatePacing [] targetC8 ⟨2025, 0, 31⟩).projectedPercentage = 0 ∧
    (calculatePacing [] targetC8 ⟨2025, 0, 31⟩).onTrack = false := by
  refine ⟨?_, ?_, ?_, ?_, ?_⟩ <;>
    norm_num [calculatePacing, targetC8, getDaysInMonth, isLeap]

/-- **C8 (amended).** When additionally `revenueTarget > 0`: if the reference
day is the last of its month and the month-to-date revenue equals the target,
pacing and projection are exactly `100` and `onTrack` holds. -/
theorem pacing_full_month_C8 (metrics : List DailyMetrics) (target : MonthlyTarget)
    (refDate : YMD)
    (hdays : refDate.day = getDaysInMonth refDate.year refDate.month)
    (hrev : (calculatePacing metrics target refDate).currentRevenue = target.revenueTarget)
    (hpos : 0 < target.revenueTarget) :
    (calculatePacing metrics target refDate).pacingPercentage = 100 ∧
    (calculatePacing metrics target refDate).projectedPercentage = 100 ∧
    (calculatePacing metrics target refDate).onTrack = true := by
  have hdim : 0 < getDaysInMonth refDate.year refDate.month :=
    lt_of_lt_of_le (by norm_num) (getDaysInMonth_pos _ _)
  simp only [calculatePacing] at hrev ⊢
  rw [hdays]
  rw [hrev]
  have hq : ((getDaysInMonth refDate.year refDate.month : ℚ)) ≠ 0 :=
    Nat.cast_ne_zero.mpr (by omega)
  have htne : target.revenueTarget ≠ 0 := ne_of_gt hpos
  rw [if_pos hdim, if_pos hpos, if_pos hpos]
  refine ⟨by field_simp, by field_simp, ?_⟩
  rw [div_mul_cancel₀ _ hq, div_self htne, one_mul]
  norm_num

/-- **C8 witness.** The amended pacing theorem at the concrete on-target
January 2025 instance evaluated on its last day. -/
theorem pacing_full_month_C8_witness :
    (calculatePacing [metricC8] targetC8W ⟨2025, 0, 31⟩).pacingPercentage = 100 ∧
    (calculatePacing [metricC8] targetC8W ⟨2025, 0, 31⟩).projectedPercentage = 100 ∧
    (calculatePacing [metricC8] targetC8W ⟨2025, 0, 31⟩).onTrack = true :=
  pacing_full_month_C8 [metricC8] targetC8W ⟨2025, 0, 31⟩
    (by norm_num [getDaysInMonth, isLeap])
    (by norm_num [calculatePacing, metricC8, targetC8W])
    (by norm_num [targetC8W])

/-- A digit character survives the value/render round trip. -/
theorem digitChar_digitVal (c : Char) (h : isDigitCh c = true) :
    digitChar (digitVal c) = c := by
  simp only [isDigitCh, Bool.and_eq_true, decide_eq_true_eq] at h
  have h48 : 48 ≤ c.toNat := h.1
  have h57 : c.toNat ≤ 57 := h.2
  unfold digitChar digitVal
  have hm : (c.toNat - 48) % 10 = c.toNat - 48 := Nat.mod_eq_of_lt (by omega)
  rw [hm, show 48 + (c.toNat - 48) = c.toNat by omega, Char.ofNat_toNat]

/-- **C6 counterexample.** A non-empty month cell that matches none of the
`m-yyyy`/`mm-yyyy`/`m/yyyy` spellings is **not** skipped: the row parses with
`success = 1`, `errors = 0`, and its month key is stored verbatim
(`"garbage"`), contradicting "rows without a parsable month are skipped with a
warning" — only rows with an *empty* month cell are skipped. -/
theorem addTargets_garbage_month_C6_counterexample :
    (addTargets emptyHarmonizer [rowTargetGarbage]).2 = ⟨1, 0⟩ ∧
    ((addTargets emptyHarmonizer [rowTargetGarbage]).1.targets.map (fun t => t.month)) =
      ["garbage"] ∧
    (addTargets emptyHarmonizer [rowTargetGarbage]).1.errors = [] := by
  refine ⟨?_, ?_, ?_⟩ <;> decide

/-- **C6 (amended).** A `"1-2025"`/`Rev_target` row normalizes to the
canonical key `"2025-01"` and is retrievable by a month-key lookup, also
through the `harmonize` snapshot; `m-yyyy`, `mm-yyyy` and `m/yyyy` spellings
normalize to `yyyy-mm` in general; a row with an **empty** month cell (the only
kind the code rejects) is skipped, counted, and logged with a warning; and an
efficiency-ratio target parsed as a value `> 1` is divided by `100`. -/
theorem target_month_normalization_C6 :
    (((addTargets emptyHarmonizer [rowTargetC6]).1.targets.find?
        (fun t => t.month == "2025-01")).map (fun t => t.revenueTarget) =
      some (1633.5 : ℚ)) ∧
    ((harmonize (addTargets emptyHarmonizer [rowTargetC6]).1 true).1.targets =
      (addTargets emptyHarmonizer [rowTargetC6]).1.targets) ∧
    (∀ c sep y1 y2 y3 y4 : Char, isDigitCh c = true → isDigitCh y1 = true →
      isDigitCh y2 = true → isDigitCh y3 = true → isDigitCh y4 = true →
      (sep = '-' ∨ sep = '/') →
      normalizeMonth (String.mk [c, sep, y1, y2, y3, y4]) =
        String.mk [y1, y2, y3, y4, '-', '0', c]) ∧
    (∀ c1 c2 sep y1 y2 y3 y4 : Char, isDigitCh c1 = true → isDigitCh c2 = true →
      isDigitCh y1 = true → isDigitCh y2 = true → isDigitCh y3 = true →
      isDigitCh y4 = true → (sep = '-' ∨ sep = '/') →
      normalizeMonth (String.mk [c1, c2, sep, y1, y2, y3, y4]) =
        String.mk [y1, y2, y3, y4, '-', c1, c2]) ∧
    (∀ s r, jsOrDefault (jsOrStr (getField r "Month") (getField r "month")) "" = "" →
      (addTargets s [r]).1.targets = [] ∧ (addTargets s [r]).2 = ⟨0, 1⟩ ∧
      (addTargets s [r]).1.errors = s.errors ++ ["Targets: 1 rows failed validation"]) ∧
    (∀ s r q, jsOrDefault (jsOrStr (getField r "Month") (getField r "month")) "" ≠ "" →
      parseEuropeanNumber (some (jsOrDefault
        (jsOrStr (jsOrStr (getField r "MER_Target") (getField r "mer_target"))
          (getField r "MERTarget")) "0.2")) = q → 1 < q →
      ((addTargets s [r]).1.targets.map (fun t => t.merTarget)) = [q / 100]) := by
  refine ⟨?_, rfl, ?_, ?_, ?_, ?_⟩
  · norm_num +decide [addTargets, emptyHarmonizer, rowTargetC6, getField, jsOrStr,
      jsOrDefault, normalizeMonth, monthPattern, takeDigits, isDigitCh, digitsVal,
      digitVal_c0, digitVal_c1, digitVal_c2, digitVal_c3, digitVal_c4, digitVal_c5,
      digitVal_c6, digitVal_c7, digitVal_c8, digitVal_c9, parseEuropeanNumber, jsTrim,
      removeDots, replaceFirstComma, jsParseFloat, parseFloatCore, splitSign, isWS,
      parseExp, digitChar_e0, digitChar_e1, digitChar_e2, digitChar_e5, List.find?]
  · intro c sep y1 y2 y3 y4 hc h1 h2 h3 h4 hsep
    unfold normalizeMonth monthPattern
    simp only [takeDigits, hc, h1, h2, h3, h4, if_true]
    have hsd : isDigitCh sep = false := by
      rcases hsep with rfl | rfl <;> decide
    simp only [hsd, Bool.false_eq_true, if_false]
    have hguard : sep = '-' ∨ sep = '/' := hsep
    simp only [if_pos hguard]
    have ht : takeDigits [y1, y2, y3, y4] =
        ([digitVal y1, digitVal y2, digitVal y3, digitVal y4], []) := by
      simp [takeDigits, h1, h2, h3, h4]
    rw [ht]
    simp [digitChar_digitVal, hc, h1, h2, h3, h4]
  · intro c1 c2 sep y1 y2 y3 y4 hc1 hc2 h1 h2 h3 h4 hsep
    unfold normalizeMonth monthPattern
    simp only [takeDigits, hc1, hc2, h1, h2, h3, h4, if_true]
    have hsd : isDigitCh sep = false := by
      rcases hsep with rfl | rfl <;> decide
    simp only [hsd, Bool.false_eq_true, if_false]
    have hguard : sep = '-' ∨ sep = '/' := hsep
    simp only [if_pos hguard]
    have ht : takeDigits [y1, y2, y3, y4] =
        ([digitVal y1, digitVal y2, digitVal y3, digitVal y4], []) := by
      simp [takeDigits, h1, h2, h3, h4]
    rw [ht]
    simp [digitChar_digitVal, hc1, hc2, h1, h2, h3, h4]
  · intro s r h
    have hmsg : "Targets: " ++ toString (1 : Nat) ++ " rows failed validation" =
        "Targets: 1 rows failed validation" := by decide
    refine ⟨?_, ?_, ?_⟩ <;>
      simp [addTargets, h, hmsg]
  · intro s r q hmonth hq hq1
    simp only [addTargets, List.foldl_cons, List.foldl_nil, hq]
    rw [if_neg hmonth, if_pos hq1]
    simp

/-- **C6 witness.** The amended theorem applied at concrete inputs: the
`"1-2025"` spelling normalizes to `"2025-01"`, an empty-month row is skipped,
and a percentage-style MER target of `20` is stored as `20/100`. -/
theorem target_month_normalization_C6_witness :
    normalizeMonth (String.mk ['1', '-', '2', '0', '2', '5']) =
      String.mk ['2', '0', '2', '5', '-', '0', '1'] ∧
    (addTargets emptyHarmonizer [[("Label", "A")]]).1.targets = [] ∧
    ((addTargets emptyHarmonizer [[("Month", "3-2025"), ("MER_Target", "20")]]).1.targets.map
      (fun t => t.merTarget)) = [(20 : ℚ) / 100] :=
  ⟨target_month_normalization_C6.2.2.1 '1' '-' '2' '0' '2' '5'
      (by decide) (by decide) (by decide) (by decide) (by decide) (Or.inl rfl),
   (target_month_normalization_C6.2.2.2.2.1 emptyHarmonizer [("Label", "A")] (by decide)).1,
   target_month_normalization_C6.2.2.2.2.2 emptyHarmonizer
     [("Month", "3-2025"), ("MER_Target", "20")] 20 (by decide)
     (by norm_num +decide [parseEuropeanNumber, getField, jsOrStr, jsOrDefault, jsTrim,
       removeDots, replaceFirstComma, jsParseFloat, parseFloatCore, splitSign,
       takeDigits, isDigitCh, isWS, digitsVal, parseExp, digitVal_c2, digitVal_c0,
       List.find?])
     (by norm_num)⟩

/-! ### Scan lemmas for `getNthWeekdayOfMonth` -/

theorem findNthMatch_some {α : Type} (p : α → Bool) :
    ∀ (n : Nat) (l : List α) (x : α), findNthMatch p n l = some x → x ∈ l ∧ p x = true := by
  intro n l
  induction l generalizing n with
  | nil => intro x h; simp [findNthMatch] at h
  | cons a as ih =>
    intro x h
    unfold findNthMatch at h
    by_cases hp : p a
    · rw [if_pos hp] at h
      by_cases h1 : n = 1
      · rw [if_pos h1] at h
        cases h
        exact ⟨List.mem_cons_self a as, hp⟩
      · rw [if_neg h1] at h
        have := ih (n - 1) x h
        exact ⟨List.mem_cons_of_mem a this.1, this.2⟩
    · rw [if_neg hp] at h
      have := ih n x h
      exact ⟨List.mem_cons_of_mem a this.1, this.2⟩

theorem findNthMatch_none_iff {α : Type} (p : α → Bool) :
    ∀ (n : Nat) (l : List α), 1 ≤ n →
      (findNthMatch p n l = none ↔ l.countP p < n) := by
  intro n l
  induction l generalizing n with
  | nil =>
    intro hn
    simp [findNthMatch, List.countP_nil]
    omega
  | cons a as ih =>
    intro hn
    unfold findNthMatch
    by_cases hp : p a
    · rw [if_pos hp, List.countP_cons_of_pos _ _ hp]
      by_cases h1 : n = 1
      · subst h1
        simp
      · rw [if_neg h1, ih (n - 1) (by omega)]
        omega
    · rw [if_neg hp, List.countP_cons_of_neg _ _ hp, ih n hn]

/-- The weekday advances linearly with the day of the month. -/
theorem dayOfWeekYMD_day (y m d : Nat) (hd : 1 ≤ d) :
    dayOfWeekYMD ⟨y, m, d⟩ = (dayOfWeekYMD ⟨y, m, 1⟩ + (d - 1)) % 7 := by
  show (365 * (y - 1) + leapsBefore y + daysBeforeMonth y m + (d - 1) + 1) % 7 =
    ((365 * (y - 1) + leapsBefore y + daysBeforeMonth y m + (1 - 1) + 1) % 7 + (d - 1)) % 7
  omega

/-- Any 28 consecutive days contain exactly four of each weekday. -/
theorem countP_weekday_28 :
    ∀ B < 7, ∀ w < 7,
      (List.range' 1 28).countP (fun day => (B + (day - 1)) % 7 == w) = 4 := by
  decide

theorem countP_weekday_ge (B w L : Nat) (hB : B < 7) (hw : w < 7) (hL : 28 ≤ L) :
    4 ≤ (List.range' 1 L).countP (fun day => (B + (day - 1)) % 7 == w) := by
  have hsplit : List.range' 1 28 ++ List.range' 29 (L - 28) = List.range' 1 L := by
    have h := List.range'_append 1 28 (L - 28) 1
    simp only [Nat.one_mul] at h
    rw [show L - 28 + 28 = L by omega] at h
    exact h
  rw [← hsplit, List.countP_append, countP_weekday_28 B hB w hw]
  omega

/-- **C2 counterexample.** July 14, 2026 is the 2nd Tuesday of July 2026
(July's Tuesdays are the 7th, 14th, 21st, 28th), and the 2nd Tuesday of July
2025 exists (July 8).  Yet `alignDateByDayOfWeek` returns July 15, 2025 — a
Tuesday, but the **3rd** Tuesday — because `getWeekOfMonth` (calendar row
index) is 3 for July 14, 2026, not the ordinal occurrence 2. -/
theorem alignDate_third_tuesday_C2_counterexample :
    dayOfWeekYMD ⟨2026, 6, 14⟩ = 2 ∧
    getNthWeekdayOfMonth 2026 6 2 2 = some ⟨2026, 6, 14⟩ ∧
    getNthWeekdayOfMonth 2025 6 2 2 = some ⟨2025, 6, 8⟩ ∧
    alignDateByDayOfWeek ⟨2026, 6, 14⟩ = ⟨2025, 6, 15⟩ ∧
    (⟨2025, 6, 15⟩ : YMD) ≠ ⟨2025, 6, 8⟩ := by
  refine ⟨?_, ?_, ?_, ?_, ?_⟩ <;> decide

/-- **C2 (amended).** For a current date that is the 2nd Tuesday of its month
(equivalently: a Tuesday with day-of-month in 8..14), `alignDateByDayOfWeek`
always returns a valid Tuesday of the same calendar month one year earlier
(the scan never fails, so the naive fallback never fires); the returned date
is the `getWeekOfMonth`-th Tuesday of that month, which is the **2nd** Tuesday
exactly when the current month starts on Sunday, Monday or Tuesday, and the
**3rd** Tuesday otherwise. -/
theorem alignDate_second_tuesday_C2 (y m d : Nat)
    (hv : validYMD ⟨y, m, d⟩) (hy : 2 ≤ y)
    (htue : dayOfWeekYMD ⟨y, m, d⟩ = 2) (hlo : 8 ≤ d) (hhi : d ≤ 14) :
    ∃ d' : YMD, alignDateByDayOfWeek ⟨y, m, d⟩ = d' ∧
      d'.year = y - 1 ∧ d'.month = m ∧ dayOfWeekYMD d' = 2 ∧ validYMD d' ∧
      getNthWeekdayOfMonth (y - 1) m 2 (getWeekOfMonth ⟨y, m, d⟩) = some d' ∧
      (dayOfWeekYMD ⟨y, m, 1⟩ ≤ 2 →
        getNthWeekdayOfMonth (y - 1) m 2 2 = some d') ∧
      (3 ≤ dayOfWeekYMD ⟨y, m, 1⟩ →
        getNthWeekdayOfMonth (y - 1) m 2 3 = some d') := by
  obtain ⟨hy1, hy2, hm12, hd1, hd2⟩ := hv
  have hy2b : y ≤ 9999 := hy2
  have hm12b : m < 12 := hm12
  set f := dayOfWeekYMD ⟨y, m, 1⟩ with hf
  have hf7 : f < 7 := Nat.mod_lt _ (by omega)
  have hshift := dayOfWeekYMD_day y m d (by omega)
  rw [htue] at hshift
  have hfd : f + d = 10 ∨ f + d = 17 := by omega
  have hwom : getWeekOfMonth ⟨y, m, d⟩ = (d + f + 6) / 7 := rfl
  have hwom23 : getWeekOfMonth ⟨y, m, d⟩ = 2 ∨ getWeekOfMonth ⟨y, m, d⟩ = 3 := by
    rw [hwom]; omega
  -- the scan in the prior-year month cannot fail
  set B := dayOfWeekYMD ⟨y - 1, m, 1⟩ with hB
  have hB7 : B < 7 := Nat.mod_lt _ (by omega)
  have hdim : 28 ≤ getDaysInMonth (y - 1) m := getDaysInMonth_pos _ _
  have hcong : (List.range' 1 (getDaysInMonth (y - 1) m)).countP
      (fun day => dayOfWeekYMD ⟨y - 1, m, day⟩ == 2) =
      (List.range' 1 (getDaysInMonth (y - 1) m)).countP
      (fun day => (B + (day - 1)) % 7 == 2) := by
    apply List.countP_congr
    intro x hx
    have hx1 : 1 ≤ x := by
      have := (List.mem_range'_1).mp hx
      omega
    rw [dayOfWeekYMD_day (y - 1) m x hx1, ← hB]
  have hcount : 4 ≤ (List.range' 1 (getDaysInMonth (y - 1) m)).countP
      (fun day => dayOfWeekYMD ⟨y - 1, m, day⟩ == 2) := by
    rw [hcong]
    exact countP_weekday_ge B 2 _ hB7 (by omega) hdim
  have hscan : ∀ n, 1 ≤ n → n ≤ 4 →
      ∃ day, findNthMatch (fun day => dayOfWeekYMD ⟨y - 1, m, day⟩ == 2) n
        (List.range' 1 (getDaysInMonth (y - 1) m)) = some day := by
    intro n hn1 hn4
    rcases hcase : findNthMatch (fun day => dayOfWeekYMD ⟨y - 1, m, day⟩ == 2) n
        (List.range' 1 (getDaysInMonth (y - 1) m)) with _ | day
    · exfalso
      have := (findNthMatch_none_iff _ n _ hn1).mp hcase
      omega
    · exact ⟨day, rfl⟩
  obtain ⟨day, hday⟩ := hscan (getWeekOfMonth ⟨y, m, d⟩) (by omega) (by omega)
  have hmem := findNthMatch_some _ _ _ _ hday
  have hdrange := (List.mem_range'_1).mp hmem.1
  have hptrue : dayOfWeekYMD ⟨y - 1, m, day⟩ = 2 := by
    have := hmem.2
    simpa using this
  have hnth : getNthWeekdayOfMonth (y - 1) m 2 (getWeekOfMonth ⟨y, m, d⟩) =
      some ⟨y - 1, m, day⟩ := by
    unfold getNthWeekdayOfMonth
    rw [hday]
    rfl
  refine ⟨⟨y - 1, m, day⟩, ?_, rfl, rfl, hptrue, ?_, hnth, ?_, ?_⟩
  · simp only [alignDateByDayOfWeek]
    rw [htue, hnth]
  · exact ⟨by show 1 ≤ y - 1; omega, by show y - 1 ≤ 9999; omega,
      by show m < 12; omega, by show 1 ≤ day; omega,
      by show day ≤ getDaysInMonth (y - 1) m; omega⟩
  · intro hle
    have h2 : getWeekOfMonth ⟨y, m, d⟩ = 2 := by
      rw [hwom]; omega
    rw [h2] at hnth
    exact hnth
  · intro hge
    have h3 : getWeekOfMonth ⟨y, m, d⟩ = 3 := by
      rw [hwom]; omega
    rw [h3] at hnth
    exact hnth

/-- **C2 witness.** The amended alignment theorem at July 14, 2026 (a 2nd
Tuesday): the result lies in July 2025 and is a Tuesday. -/
theorem alignDate_second_tuesday_C2_witness :
    ∃ d' : YMD, alignDateByDayOfWeek ⟨2026, 6, 14⟩ = d' ∧
      d'.year = 2025 ∧ d'.month = 6 ∧ dayOfWeekYMD d' = 2 := by
  obtain ⟨d', h1, h2, h3, h4, -⟩ :=
    alignDate_second_tuesday_C2 2026 6 14 (by decide) (by norm_num) (by decide)
      (by norm_num) (by norm_num)
  exact ⟨d', h1, by omega, h3, h4⟩

theorem addGetters_props : ∀ g ∈ addGetters,
    (∀ a b, g (addMetrics a b) = g a + g b) ∧
    (∀ m, g { m with label := "All" } = g m) ∧
    (∀ m, g (recomputeDerived m) = g m) := by
  intro g hg
  simp only [addGetters, List.mem_cons, List.not_mem_nil, or_false] at hg
  rcases hg with rfl | rfl | rfl | rfl | rfl | rfl | rfl | rfl | rfl | rfl | rfl <;>
    exact ⟨fun a b => rfl, fun m => rfl, fun m => rfl⟩

theorem lookupKey_update (acc : List (String × DailyMetrics)) (k key' : String)
    (m : DailyMetrics) :
    lookupKey k (acc.map (fun p => if p.1 == key' then (p.1, addMetrics p.2 m) else p)) =
      if k = key' then (lookupKey k acc).map (fun v => addMetrics v m)
      else lookupKey k acc := by
  induction acc with
  | nil => by_cases hk : k = key' <;> simp [lookupKey, hk]
  | cons p ps ih =>
    unfold lookupKey at ih ⊢
    by_cases hpq : p.1 = key'
    · have e1 : (p.1 == key') = true := by simp [hpq]
      simp only [List.map_cons, e1, if_true]
      by_cases hpk : p.1 = k
      · have hkq : k = key' := by rw [← hpk, hpq]
        have e2 : ((p.1, addMetrics p.2 m).1 == k) = true := by simp [hpk]
        have e3 : (p.1 == k) = true := by simp [hpk]
        simp only [List.find?_cons, e2, e3, if_pos hkq]
        rfl
      · have hkq : ¬ k = key' := fun he => hpk (by rw [hpq, ← he])
        have e2 : ((p.1, addMetrics p.2 m).1 == k) = false := by simp [hpk]
        have e3 : (p.1 == k) = false := by simp [hpk]
        simp only [List.find?_cons, e2, e3, if_neg hkq]
        rw [ih, if_neg hkq]
    · have e1 : (p.1 == key') = false := by simp [hpq]
      simp only [List.map_cons, e1, Bool.false_eq_true, if_false]
      by_cases hpk : p.1 = k
      · have hkq : ¬ k = key' := fun he => hpq (by rw [hpk, he])
        have e3 : (p.1 == k) = true := by simp [hpk]
        simp only [List.find?_cons, e3, if_neg hkq]
      · have e3 : (p.1 == k) = false := by simp [hpk]
        simp only [List.find?_cons, e3]
        exact ih

theorem lookupKey_append (acc : List (String × DailyMetrics)) (k key' : String)
    (v : DailyMetrics) :
    lookupKey k (acc ++ [(key', v)]) =
      ((lookupKey k acc).or (if k = key' then some v else none)) := by
  unfold lookupKey
  rw [List.find?_append]
  rcases h : acc.find? (fun p => p.1 == k) with _ | w
  · rw [h]
    simp only [Option.map_none, Option.none_or]
    by_cases hk : k = key'
    · have e : ((key', v).1 == k) = true := by simp [Eq.symm hk]
      simp only [List.find?_cons, e, if_pos hk]
      rfl
    · have e : ((key', v).1 == k) = false := by
        simp only [beq_eq_false_iff_ne, ne_eq]
        exact fun he => hk (Eq.symm he)
      simp only [List.find?_cons, e, if_neg hk]
      rfl
  · rw [h]
    rfl

theorem gval_aggStep (g : DailyMetrics → ℚ)
    (hadd : ∀ a b, g (addMetrics a b) = g a + g b)
    (hclone : ∀ m, g { m with label := "All" } = g m)
    (acc : List (String × DailyMetrics)) (m : DailyMetrics) (k : String) :
    gval g k (aggStep acc m) = gval g k acc + (if m.dateString = k then g m else 0) := by
  unfold aggStep
  by_cases hfound : (acc.find? (fun p => p.1 == m.dateString)).isSome
  · rw [if_pos hfound]
    unfold gval
    rw [lookupKey_update]
    by_cases hk : k = m.dateString
    · rw [if_pos hk]
      rcases hl : lookupKey k acc with _ | v
      · exfalso
        rw [hk] at hl
        unfold lookupKey at hl
        rcases hf2 : acc.find? (fun p => p.1 == m.dateString) with _ | w
        · rw [hf2] at hfound; simp at hfound
        · rw [hf2] at hl; simp at hl
      · rw [if_pos (Eq.symm hk)]
        simp [hadd]
    · rw [if_neg hk, if_neg (fun he => hk (Eq.symm he)), add_zero]
  · rw [if_neg hfound]
    unfold gval
    rw [lookupKey_append]
    rcases hl : lookupKey k acc with _ | v
    · by_cases hk : k = m.dateString
      · rw [if_pos hk, if_pos (Eq.symm hk)]
        simp [hclone]
      · rw [if_neg hk, if_neg (fun he => hk (Eq.symm he))]
        simp
    · have hpres : (acc.find? (fun p => p.1 == k)).isSome := by
        unfold lookupKey at hl
        rcases hf : acc.find? (fun p => p.1 == k) with _ | w
        · rw [hf] at hl; simp at hl
        · rw [hf]; rfl
      have hkne : ¬ m.dateString = k := by
        intro he
        rw [he] at hfound
        exact hfound hpres
      rw [if_neg hkne, add_zero]
      rfl

theorem present_aggStep (acc : List (String × DailyMetrics)) (m : DailyMetrics) (k : String) :
    (lookupKey k (aggStep acc m)).isSome = true ↔
      (lookupKey k acc).isSome = true ∨ m.dateString = k := by
  unfold aggStep
  by_cases hfound : (acc.find? (fun p => p.1 == m.dateString)).isSome
  · rw [if_pos hfound, lookupKey_update]
    by_cases hk : k = m.dateString
    · rw [if_pos hk]
      constructor
      · intro _
        exact Or.inr (Eq.symm hk)
      · intro _
        rw [hk]
        unfold lookupKey
        rcases hf2 : acc.find? (fun p => p.1 == m.dateString) with _ | w
        · rw [hf2] at hfound; simp at hfound
        · rw [hf2]; rfl
    · rw [if_neg hk]
      constructor
      · exact Or.inl
      · rintro (h | h)
        · exact h
        · exact absurd (Eq.symm h) hk
  · rw [if_neg hfound, lookupKey_append]
    rcases hl : lookupKey k acc with _ | v
    · by_cases hk : k = m.dateString
      · simp [hk]
      · have hne : ¬ m.dateString = k := fun he => hk (Eq.symm he)
        simp [hk, hne]
    · simp

theorem gval_aggFold (g : DailyMetrics → ℚ)
    (hadd : ∀ a b, g (addMetrics a b) = g a + g b)
    (hclone : ∀ m, g { m with label := "All" } = g m) :
    ∀ (l : List DailyMetrics) (acc : List (String × DailyMetrics)) (k : String),
      gval g k (l.foldl aggStep acc) = gval g k acc + sumKey g k l := by
  intro l
  induction l with
  | nil => intro acc k; simp [sumKey]
  | cons m rest ih =>
    intro acc k
    rw [List.foldl_cons, ih, gval_aggStep g hadd hclone]
    unfold sumKey
    by_cases hk : m.dateString = k
    · rw [if_pos hk]
      rw [List.filter_cons_of_pos (by simp [hk])]
      simp only [List.map_cons, List.sum_cons]
      ring
    · rw [if_neg hk]
      rw [List.filter_cons_of_neg (by simp [hk])]
      ring

theorem present_aggFold :
    ∀ (l : List DailyMetrics) (acc : List (String × DailyMetrics)) (k : String),
      (lookupKey k (l.foldl aggStep acc)).isSome = true ↔
        (lookupKey k acc).isSome = true ∨ ∃ m ∈ l, m.dateString = k := by
  intro l
  induction l with
  | nil => intro acc k; simp
  | cons m rest ih =>
    intro acc k
    rw [List.foldl_cons, ih, present_aggStep]
    constructor
    · rintro ((h | h) | ⟨x, hx, he⟩)
      · exact Or.inl h
      · exact Or.inr ⟨m, List.mem_cons_self m rest, h⟩
      · exact Or.inr ⟨x, List.mem_cons_of_mem m hx, he⟩
    · rintro (h | ⟨x, hx, he⟩)
      · exact Or.inl (Or.inl h)
      · rcases List.mem_cons.mp hx with rfl | hx2
        · exact Or.inl (Or.inr he)
        · exact Or.inr ⟨x, hx2, he⟩

theorem find?_congr_mem {α : Type} (p q : α → Bool) :
    ∀ l : List α, (∀ x ∈ l, p x = q x) → l.find? p = l.find? q := by
  intro l
  induction l with
  | nil => intro _; rfl
  | cons a as ih =>
    intro h
    have ha := h a (List.mem_cons_self a as)
    simp only [List.find?_cons, ha]
    by_cases hqa : q a = true
    · simp [hqa]
    · have hf : q a = false := by revert hqa; cases q a <;> simp
      simp only [hf]
      exact ih (fun x hx => h x (List.mem_cons_of_mem a hx))

theorem aggStep_keys (acc : List (String × DailyMetrics)) (m : DailyMetrics)
    (h : ∀ p ∈ acc, p.1 = p.2.dateString) :
    ∀ p ∈ aggStep acc m, p.1 = p.2.dateString := by
  unfold aggStep
  by_cases hfound : (acc.find? (fun p => p.1 == m.dateString)).isSome
  · rw [if_pos hfound]
    intro p hp
    obtain ⟨q, hq, rfl⟩ := List.mem_map.mp hp
    by_cases hqk : (q.1 == m.dateString) = true
    · simp only [hqk, if_true]
      exact h q hq
    · have hf : (q.1 == m.dateString) = false := by revert hqk; cases q.1 == m.dateString <;> simp
      simp only [hf, Bool.false_eq_true, if_false]
      exact h q hq
  · rw [if_neg hfound]
    intro p hp
    rcases List.mem_append.mp hp with hp1 | hp2
    · exact h p hp1
    · rcases List.mem_singleton.mp hp2 with rfl
      rfl

theorem aggFold_keys :
    ∀ (l : List DailyMetrics) (acc : List (String × DailyMetrics)),
      (∀ p ∈ acc, p.1 = p.2.dateString) →
      ∀ p ∈ l.foldl aggStep acc, p.1 = p.2.dateString := by
  intro l
  induction l with
  | nil => intro acc h; exact h
  | cons m rest ih =>
    intro acc h
    rw [List.foldl_cons]
    exact ih (aggStep acc m) (aggStep_keys acc m h)

theorem aggStep_nodupKeys (acc : List (String × DailyMetrics)) (m : DailyMetrics)
    (h : (acc.map (fun p => p.1)).Nodup) :
    ((aggStep acc m).map (fun p => p.1)).Nodup := by
  unfold aggStep
  by_cases hfound : (acc.find? (fun p => p.1 == m.dateString)).isSome
  · rw [if_pos hfound]
    rw [List.map_map]
    have he : acc.map ((fun p => p.1) ∘
        (fun p => if p.1 == m.dateString then (p.1, addMetrics p.2 m) else p)) =
        acc.map (fun p => p.1) := by
      apply List.map_congr_left
      intro p _
      simp only [Function.comp]
      by_cases hp : (p.1 == m.dateString) = true
      · simp [hp]
      · have hf : (p.1 == m.dateString) = false := by
          revert hp; cases p.1 == m.dateString <;> simp
        simp [hf]
    rw [he]
    exact h
  · rw [if_neg hfound]
    rw [List.map_append]
    have hnone : acc.find? (fun p => p.1 == m.dateString) = none :=
      Option.not_isSome_iff_eq_none.mp hfound
    have hnomem : m.dateString ∉ acc.map (fun p => p.1) := by
      intro hmem
      obtain ⟨p, hp, he⟩ := List.mem_map.mp hmem
      have := List.find?_eq_none.mp hnone p hp
      simp [he] at this
    simp only [List.map_cons, List.map_nil]
    rw [List.nodup_append]
    refine ⟨h, List.nodup_singleton _, ?_⟩
    intro a ha hb
    rcases List.mem_singleton.mp hb with rfl
    exact hnomem ha

theorem aggFold_nodupKeys :
    ∀ (l : List DailyMetrics) (acc : List (String × DailyMetrics)),
      (acc.map (fun p => p.1)).Nodup →
      ((l.foldl aggStep acc).map (fun p => p.1)).Nodup := by
  intro l
  induction l with
  | nil => intro acc h; exact h
  | cons m rest ih =>
    intro acc h
    rw [List.foldl_cons]
    exact ih (aggStep acc m) (aggStep_nodupKeys acc m h)

theorem aggregateByDate_find (l : List DailyMetrics) (k : String) :
    (aggregateByDate l).find? (fun m => m.dateString == k) =
      (lookupKey k (l.foldl aggStep [])).map recomputeDerived := by
  unfold aggregateByDate lookupKey
  rw [List.find?_map]
  have hkeys := aggFold_keys l [] (by simp)
  have hcong : (l.foldl aggStep []).find?
      ((fun m => m.dateString == k) ∘ (fun p => recomputeDerived p.2)) =
      (l.foldl aggStep []).find? (fun p => p.1 == k) := by
    apply find?_congr_mem
    intro p hp
    have hk := hkeys p hp
    simp only [Function.comp]
    rw [show (recomputeDerived p.2).dateString = p.2.dateString from rfl, ← hk]
  rw [hcong, Option.map_map]
  rfl

theorem aggregateByDate_nodupDates (l : List DailyMetrics) :
    ((aggregateByDate l).map (fun m => m.dateString)).Nodup := by
  unfold aggregateByDate
  rw [List.map_map]
  have hkeys := aggFold_keys l [] (by simp)
  have he : (l.foldl aggStep []).map
      ((fun m => m.dateString) ∘ (fun p => recomputeDerived p.2)) =
      (l.foldl aggStep []).map (fun p => p.1) := by
    apply List.map_congr_left
    intro p hp
    have hk := hkeys p hp
    simp only [Function.comp]
    rw [show (recomputeDerived p.2).dateString = p.2.dateString from rfl, ← hk]
  rw [he]
  exact aggFold_nodupKeys l [] (by simp)

theorem sumKey_nodup (g : DailyMetrics → ℚ) (k : String) :
    ∀ out : List DailyMetrics, ((out.map (fun m => m.dateString)).Nodup) →
      sumKey g k out = ((out.find? (fun m => m.dateString == k)).map g).getD 0 := by
  intro out
  induction out with
  | nil => intro _; simp [sumKey]
  | cons a as ih =>
    intro hnd
    rw [List.map_cons, List.nodup_cons] at hnd
    by_cases ha : a.dateString = k
    · have he : (a.dateString == k) = true := by simp [ha]
      have hrest : as.filter (fun m => m.dateString == k) = [] := by
        rw [List.filter_eq_nil_iff]
        intro x hx hxk
        apply hnd.1
        have hxd : x.dateString = a.dateString := by
          have : x.dateString = k := by simpa using hxk
          rw [this, ha]
        rw [← hxd]
        exact List.mem_map_of_mem _ hx
      unfold sumKey
      simp only [List.filter_cons, List.find?_cons, he, if_true, hrest]
      simp
    · have he : (a.dateString == k) = false := by simp [ha]
      unfold sumKey at ih ⊢
      simp only [List.filter_cons, List.find?_cons, he, Bool.false_eq_true, if_false]
      exact ih hnd.2

theorem aggregateByDate_present (l : List DailyMetrics) (k : String) :
    ((aggregateByDate l).find? (fun m => m.dateString == k)).isSome = true ↔
      ∃ m ∈ l, m.dateString = k := by
  rw [aggregateByDate_find]
  constructor
  · intro h
    have hs : (lookupKey k (l.foldl aggStep [])).isSome = true := by
      rcases hl : lookupKey k (l.foldl aggStep []) with _ | v
      · rw [hl] at h; simp at h
      · rfl
    rcases (present_aggFold l [] k).mp hs with h1 | h2
    · simp [lookupKey] at h1
    · exact h2
  · intro h
    have hs : (lookupKey k (l.foldl aggStep [])).isSome = true :=
      (present_aggFold l [] k).mpr (Or.inr h)
    rcases hl : lookupKey k (l.foldl aggStep []) with _ | v
    · rw [hl] at hs; simp at hs
    · rfl

theorem aggregateByDate_value_of_present (g : DailyMetrics → ℚ)
    (hadd : ∀ a b, g (addMetrics a b) = g a + g b)
    (hclone : ∀ m, g { m with label := "All" } = g m)
    (hrec : ∀ m, g (recomputeDerived m) = g m)
    (l : List DailyMetrics) (k : String) (h : ∃ m ∈ l, m.dateString = k) :
    ((aggregateByDate l).find? (fun m => m.dateString == k)).map g =
      some (sumKey g k l) := by
  rw [aggregateByDate_find]
  have hpres : (lookupKey k (l.foldl aggStep [])).isSome = true :=
    (present_aggFold l [] k).mpr (Or.inr h)
  rcases hl : lookupKey k (l.foldl aggStep []) with _ | v
  · rw [hl] at hpres; simp at hpres
  · have hgv : gval g k (l.foldl aggStep []) = sumKey g k l := by
      rw [gval_aggFold g hadd hclone l [] k]
      simp [gval, lookupKey]
    have hv : gval g k (l.foldl aggStep []) = g v := by
      simp [gval, hl]
    show some (g (recomputeDerived v)) = some (sumKey g k l)
    rw [hrec]
    rw [← hv, hgv]

theorem aggregateByDate_value_of_absent (l : List DailyMetrics) (k : String)
    (h : ¬ ∃ m ∈ l, m.dateString = k) :
    (aggregateByDate l).find? (fun m => m.dateString == k) = none := by
  rcases hf : (aggregateByDate l).find? (fun m => m.dateString == k) with _ | v
  · exact hf
  · exfalso
    apply h
    apply (aggregateByDate_present l k).mp
    rw [hf]
    rfl

theorem sumKey_agg (g : DailyMetrics → ℚ)
    (hadd : ∀ a b, g (addMetrics a b) = g a + g b)
    (hclone : ∀ m, g { m with label := "All" } = g m)
    (hrec : ∀ m, g (recomputeDerived m) = g m)
    (l : List DailyMetrics) (k : String) :
    sumKey g k (aggregateByDate l) = sumKey g k l := by
  rw [sumKey_nodup g k _ (aggregateByDate_nodupDates l)]
  by_cases h : ∃ m ∈ l, m.dateString = k
  · rw [aggregateByDate_value_of_present g hadd hclone hrec l k h]
    rfl
  · rw [aggregateByDate_value_of_absent l k h]
    have hnil : l.filter (fun m => m.dateString == k) = [] := by
      rw [List.filter_eq_nil_iff]
      intro x hx hxk
      exact h ⟨x, hx, by simpa using hxk⟩
    simp [sumKey, hnil]

theorem sumKey_append (g : DailyMetrics → ℚ) (k : String) (A B : List DailyMetrics) :
    sumKey g k (A ++ B) = sumKey g k A + sumKey g k B := by
  simp [sumKey, List.filter_append]

theorem sumKey_perm (g : DailyMetrics → ℚ) (k : String) {l l' : List DailyMetrics}
    (h : l.Perm l') : sumKey g k l = sumKey g k l' :=
  ((h.filter _).map g).sum_eq

/-- **C9.** Aggregation by date is associative on the additive fields: for any
partition of the metrics into two parts, aggregating each and re-aggregating
the merged results gives, for every date key, the same presence and the same
value of every additive field as aggregating the whole collection at once; and
every aggregated record's derived fields (`aov`, `mer`, per-platform ROAS) are
recomputed from its summed totals. -/
theorem aggregateByDate_assoc_C9 :
    (∀ (l l₁ l₂ : List DailyMetrics), l.Perm (l₁ ++ l₂) →
      ∀ k : String,
      (((aggregateByDate l).find? (fun m => m.dateString == k)).isSome = true ↔
        ((aggregateByDate (aggregateByDate l₁ ++ aggregateByDate l₂)).find?
          (fun m => m.dateString == k)).isSome = true) ∧
      ∀ g ∈ addGetters,
        ((aggregateByDate l).find? (fun m => m.dateString == k)).map g =
          ((aggregateByDate (aggregateByDate l₁ ++ aggregateByDate l₂)).find?
            (fun m => m.dateString == k)).map g) ∧
    (∀ l : List DailyMetrics, ∀ m ∈ aggregateByDate l,
      m.aov = (if m.orders > 0 then m.totalRevenue / m.orders else 0) ∧
      m.mer = (if m.totalRevenue > 0 then m.totalSpend / m.totalRevenue else 0) ∧
      m.roasFB = (if m.spendFB > 0 then (m.revenueWeb * (6/10)) / m.spendFB else 0) ∧
      m.roasGoogle =
        (if m.spendGoogle > 0 then (m.revenueWeb * (4/10)) / m.spendGoogle else 0)) := by
  constructor
  · intro l l₁ l₂ hperm k
    have hex : (∃ m ∈ l, m.dateString = k) ↔
        (∃ m ∈ aggregateByDate l₁ ++ aggregateByDate l₂, m.dateString = k) := by
      constructor
      · rintro ⟨m, hm, he⟩
        rcases List.mem_append.mp (hperm.mem_iff.mp hm) with h1 | h2
        · obtain ⟨x, hx, hxk⟩ :=
            List.find?_isSome.mp ((aggregateByDate_present l₁ k).mpr ⟨m, h1, he⟩)
          exact ⟨x, List.mem_append_left _ hx, by simpa using hxk⟩
        · obtain ⟨x, hx, hxk⟩ :=
            List.find?_isSome.mp ((aggregateByDate_present l₂ k).mpr ⟨m, h2, he⟩)
          exact ⟨x, List.mem_append_right _ hx, by simpa using hxk⟩
      · rintro ⟨m, hm, he⟩
        rcases List.mem_append.mp hm with h1 | h2
        · obtain ⟨x, hx, hxk⟩ := (aggregateByDate_present l₁ k).mp
            (List.find?_isSome.mpr ⟨m, h1, by simpa using he⟩)
          exact ⟨x, hperm.mem_iff.mpr (List.mem_append_left _ hx), hxk⟩
        · obtain ⟨x, hx, hxk⟩ := (aggregateByDate_present l₂ k).mp
            (List.find?_isSome.mpr ⟨m, h2, by simpa using he⟩)
          exact ⟨x, hperm.mem_iff.mpr (List.mem_append_right _ hx), hxk⟩
    constructor
    · rw [aggregateByDate_present l k, aggregateByDate_present _ k]
      exact hex
    · intro g hg
      obtain ⟨hadd, hclone, hrec⟩ := addGetters_props g hg
      by_cases hp : ∃ m ∈ l, m.dateString = k
      · rw [aggregateByDate_value_of_present g hadd hclone hrec l k hp,
            aggregateByDate_value_of_present g hadd hclone hrec _ k (hex.mp hp)]
        congr 1
        rw [sumKey_perm g k hperm, sumKey_append, sumKey_append,
            sumKey_agg g hadd hclone hrec l₁ k, sumKey_agg g hadd hclone hrec l₂ k]
      · rw [aggregateByDate_value_of_absent l k hp,
            aggregateByDate_value_of_absent _ k (fun hc => hp (hex.mpr hc))]
  · intro l m hm
    obtain ⟨p, hp, rfl⟩ := List.mem_map.mp hm
    exact ⟨rfl, rfl, rfl, rfl⟩

theorem aggregateByDate_assoc_C9_witness :
    ((aggregateByDate [mAgg1, mAgg2, mAgg3]).find?
        (fun m => m.dateString == "2025-01-10")).map (fun m => m.totalRevenue) =
      ((aggregateByDate (aggregateByDate [mAgg1, mAgg2] ++ aggregateByDate [mAgg3])).find?
        (fun m => m.dateString == "2025-01-10")).map (fun m => m.totalRevenue) :=
  (aggregateByDate_assoc_C9.1 [mAgg1, mAgg2, mAgg3] [mAgg1, mAgg2] [mAgg3]
      (List.Perm.refl _) "2025-01-10").2
    (fun m => m.totalRevenue)
    (List.mem_cons_of_mem _ (List.mem_cons_of_mem _ (List.mem_cons_self _ _)))

theorem minDateFold_min (l : List DailyMetrics) :
    ∀ d0, dayNumber (minDateFold l d0) ≤ dayNumber d0 ∧
      ∀ m ∈ l, dayNumber (minDateFold l d0) ≤ dayNumber m.date := by
  induction l with
  | nil => intro d0; exact ⟨le_refl _, by simp⟩
  | cons a tl ih =>
    intro d0
    by_cases hc : dayNumber a.date < dayNumber d0
    · have hstep : minDateFold (a :: tl) d0 = minDateFold tl a.date := by
        simp [minDateFold, hc]
      obtain ⟨h1, h2⟩ := ih a.date
      rw [hstep]
      refine ⟨by omega, ?_⟩
      intro m hm
      rcases List.mem_cons.mp hm with rfl | hm'
      · exact h1
      · exact h2 m hm'
    · have hstep : minDateFold (a :: tl) d0 = minDateFold tl d0 := by
        simp [minDateFold, hc]
      obtain ⟨h1, h2⟩ := ih d0
      rw [hstep]
      refine ⟨h1, ?_⟩
      intro m hm
      rcases List.mem_cons.mp hm with rfl | hm'
      · omega
      · exact h2 m hm'

theorem minDateFold_mem (l : List DailyMetrics) :
    ∀ d0, minDateFold l d0 = d0 ∨ ∃ m ∈ l, minDateFold l d0 = m.date := by
  induction l with
  | nil => intro d0; exact Or.inl rfl
  | cons a tl ih =>
    intro d0
    by_cases hc : dayNumber a.date < dayNumber d0
    · have hstep : minDateFold (a :: tl) d0 = minDateFold tl a.date := by
        simp [minDateFold, hc]
      rw [hstep]
      rcases ih a.date with h | ⟨m, hm, he⟩
      · exact Or.inr ⟨a, List.mem_cons_self _ _, h⟩
      · exact Or.inr ⟨m, List.mem_cons_of_mem _ hm, he⟩
    · have hstep : minDateFold (a :: tl) d0 = minDateFold tl d0 := by
        simp [minDateFold, hc]
      rw [hstep]
      rcases ih d0 with h | ⟨m, hm, he⟩
      · exact Or.inl h
      · exact Or.inr ⟨m, List.mem_cons_of_mem _ hm, he⟩

theorem maxNFold_max (l : List DailyMetrics) :
    ∀ n0, n0 ≤ maxNFold l n0 ∧ ∀ m ∈ l, dayNumber m.date ≤ maxNFold l n0 := by
  induction l with
  | nil => intro n0; exact ⟨le_refl _, by simp⟩
  | cons a tl ih =>
    intro n0
    have hstep : maxNFold (a :: tl) n0 = maxNFold tl (max n0 (dayNumber a.date)) := rfl
    obtain ⟨h1, h2⟩ := ih (max n0 (dayNumber a.date))
    rw [hstep]
    have hm1 : n0 ≤ max n0 (dayNumber a.date) := Nat.le_max_left _ _
    have hm2 : dayNumber a.date ≤ max n0 (dayNumber a.date) := Nat.le_max_right _ _
    refine ⟨by omega, ?_⟩
    intro m hm
    rcases List.mem_cons.mp hm with rfl | hm'
    · omega
    · exact h2 m hm'

theorem maxNFold_mem (l : List DailyMetrics) :
    ∀ n0, maxNFold l n0 = n0 ∨ ∃ m ∈ l, maxNFold l n0 = dayNumber m.date := by
  induction l with
  | nil => intro n0; exact Or.inl rfl
  | cons a tl ih =>
    intro n0
    have hstep : maxNFold (a :: tl) n0 = maxNFold tl (max n0 (dayNumber a.date)) := rfl
    rw [hstep]
    rcases ih (max n0 (dayNumber a.date)) with h | ⟨m, hm, he⟩
    · rcases Nat.le_total n0 (dayNumber a.date) with hle | hle
      · exact Or.inr ⟨a, List.mem_cons_self _ _, h.trans (Nat.max_eq_right hle)⟩
      · exact Or.inl (h.trans (Nat.max_eq_left hle))
    · exact Or.inr ⟨m, List.mem_cons_of_mem _ hm, he⟩

theorem sum_map_add_nat {α : Type} (l : List α) (f g : α → Nat) :
    (l.map (fun x => f x + g x)).sum = (l.map f).sum + (l.map g).sum := by
  induction l with
  | nil => rfl
  | cons a tl ih =>
    simp only [List.map_cons, List.sum_cons, ih]
    omega

theorem countP_eq_sum_map {α : Type} (l : List α) (p : α → Bool) :
    l.countP p = (l.map (fun x => if p x then 1 else 0)).sum := by
  induction l with
  | nil => rfl
  | cons a tl ih =>
    simp only [List.countP_cons, List.map_cons, List.sum_cons, ih]
    omega

theorem countP_flatMap_sum {α β : Type} (l : List α) (f : α → List β) (p : β → Bool) :
    (l.flatMap f).countP p = (l.map (fun x => (f x).countP p)).sum := by
  induction l with
  | nil => rfl
  | cons a tl ih =>
    rw [List.flatMap_cons, List.countP_append, List.map_cons, List.sum_cons, ih]

theorem length_flatMap_sum {α β : Type} (l : List α) (f : α → List β) :
    (l.flatMap f).length = (l.map (fun x => (f x).length)).sum := by
  induction l with
  | nil => rfl
  | cons a tl ih =>
    rw [List.flatMap_cons, List.length_append, List.map_cons, List.sum_cons, ih]

theorem length_eq_sum_countP {α β : Type} (X : List α) (P : List β) (p : β → α → Bool)
    (h : ∀ x ∈ X, P.countP (fun k => p k x) = 1) :
    X.length = (P.map (fun k => X.countP (p k))).sum := by
  induction X with
  | nil => simp
  | cons a X ih =>
    have ha := h a (List.mem_cons_self _ _)
    have hX := ih (fun x hx => h x (List.mem_cons_of_mem _ hx))
    simp only [List.length_cons, List.countP_cons]
    rw [sum_map_add_nat P (fun k => X.countP (p k)) (fun k => if p k a then 1 else 0),
      ← hX, ← countP_eq_sum_map P (fun k => p k a), ha]

theorem sum_map_eq_single {α : Type} (l : List α) (g : α → Nat) (d : α)
    (hnd : l.Nodup) (hd : d ∈ l) (h0 : ∀ x ∈ l, x ≠ d → g x = 0) :
    (l.map g).sum = g d := by
  induction l with
  | nil => cases hd
  | cons a tl ih =>
    obtain ⟨hna, hntl⟩ := List.nodup_cons.mp hnd
    rcases List.mem_cons.mp hd with rfl | hd'
    · simp only [List.map_cons, List.sum_cons]
      have hz : (tl.map g).sum = 0 := by
        apply List.sum_eq_zero
        intro x hx
        obtain ⟨y, hy, rfl⟩ := List.mem_map.mp hx
        exact h0 y (List.mem_cons_of_mem _ hy) (fun he => hna (he ▸ hy))
      omega
    · have hga : g a = 0 := h0 a (List.mem_cons_self _ _) (by rintro rfl; exact hna hd')
      simp only [List.map_cons, List.sum_cons, hga]
      rw [ih hntl hd' (fun x hx hne => h0 x (List.mem_cons_of_mem _ hx) hne)]
      omega

theorem countP_key_of_nodup {α : Type} (l : List α) (f : α → String) (k : String)
    (hnd : (l.map f).Nodup) :
    l.countP (fun x => f x == k) = if k ∈ l.map f then 1 else 0 := by
  induction l with
  | nil => simp
  | cons a tl ih =>
    rw [List.map_cons, List.nodup_cons] at hnd
    obtain ⟨hna, hntl⟩ := hnd
    rw [List.countP_cons, ih hntl]
    by_cases ha : f a = k
    · rw [← ha]
      simp [hna, List.map_cons, List.mem_cons]
    · have hb : (f a == k) = false := beq_eq_false_iff_ne.mpr ha
      have hk : ¬ k = f a := fun h => ha h.symm
      simp [hb, List.map_cons, List.mem_cons, hk]

theorem countP_beq_of_nodup (l : List String) (k : String) (hnd : l.Nodup) :
    l.countP (fun x => x == k) = if k ∈ l then 1 else 0 := by
  induction l with
  | nil => simp
  | cons a tl ih =>
    obtain ⟨hna, hntl⟩ := List.nodup_cons.mp hnd
    rw [List.countP_cons, ih hntl]
    by_cases ha : a = k
    · rw [← ha]
      simp [hna, List.mem_cons]
    · have hb : (a == k) = false := beq_eq_false_iff_ne.mpr ha
      have hk : ¬ k = a := fun h => ha h.symm
      simp [hb, List.mem_cons, hk]

theorem span_facts (m0 : DailyMetrics) (rest : List DailyMetrics)
    (hval : ∀ m ∈ m0 :: rest, validYMD m.date ∧ m.date.year ≤ 9998) :
    validYMD (minDateFold (m0 :: rest) m0.date) ∧
    ∃ dM : YMD, validYMD dM ∧ dM.year ≤ 9998 ∧
      dayNumber dM = maxNFold (m0 :: rest) (dayNumber m0.date) ∧
      dayNumber (minDateFold (m0 :: rest) m0.date) + spanDays (m0 :: rest) ≤ dayNumber dM + 1 ∧
      dayNumber (minDateFold (m0 :: rest) m0.date) ≤ maxNFold (m0 :: rest) (dayNumber m0.date) := by
  have hm0 := hval m0 (List.mem_cons_self _ _)
  have hminf := minDateFold_min (m0 :: rest) m0.date
  have hmaxf := maxNFold_max (m0 :: rest) (dayNumber m0.date)
  have hminv : validYMD (minDateFold (m0 :: rest) m0.date) := by
    rcases minDateFold_mem (m0 :: rest) m0.date with h | ⟨m, hmm, he⟩
    · rw [h]; exact hm0.1
    · rw [he]; exact (hval m hmm).1
  obtain ⟨dM, hdMv, hdMy, hdMeq⟩ : ∃ dM, validYMD dM ∧ dM.year ≤ 9998 ∧
      dayNumber dM = maxNFold (m0 :: rest) (dayNumber m0.date) := by
    rcases maxNFold_mem (m0 :: rest) (dayNumber m0.date) with h | ⟨m, hmm, he⟩
    · exact ⟨m0.date, hm0.1, hm0.2, h.symm⟩
    · exact ⟨m.date, (hval m hmm).1, (hval m hmm).2, he.symm⟩
  have hminmax : dayNumber (minDateFold (m0 :: rest) m0.date) ≤
      maxNFold (m0 :: rest) (dayNumber m0.date) := le_trans (hminf.1) (hmaxf.1)
  have hspand : spanDays (m0 :: rest) = maxNFold (m0 :: rest) (dayNumber m0.date) + 1 -
      dayNumber (minDateFold (m0 :: rest) m0.date) := rfl
  exact ⟨hminv, dM, hdMv, hdMy, hdMeq, by omega, hminmax⟩

theorem fillMissingDays_cons (m0 : DailyMetrics) (rest : List DailyMetrics)
    (labels : List String) :
    fillMissingDays (m0 :: rest) labels =
      (m0 :: rest) ++
        (iterateDays (minDateFold (m0 :: rest) m0.date) (spanDays (m0 :: rest))).flatMap
          (fun current =>
            (labels.filter (fun label =>
              !(((m0 :: rest).map (fun m => mkKey m.dateString m.label)).contains
                (mkKey (isoString current) label)))).map
              (fun label => zeroRecord current (isoString current) label)) := rfl

theorem fillMissingDays_countP_key
    (m0 : DailyMetrics) (rest : List DailyMetrics) (labels : List String)
    (hval : ∀ m ∈ m0 :: rest,
      validYMD m.date ∧ m.date.year ≤ 9998 ∧ m.dateString = isoString m.date)
    (hnd : ((m0 :: rest).map (fun m => mkKey m.dateString m.label)).Nodup)
    (hlnd : labels.Nodup)
    (d : YMD) (lab : String) (hvd : validYMD d)
    (hdlo : dayNumber (minDateFold (m0 :: rest) m0.date) ≤ dayNumber d)
    (hdhi : dayNumber d ≤ maxNFold (m0 :: rest) (dayNumber m0.date))
    (hlab : lab ∈ labels) :
    (fillMissingDays (m0 :: rest) labels).countP
      (fun m => mkKey m.dateString m.label == mkKey (isoString d) lab) = 1 := by
  obtain ⟨hminv, dM, hdMv, hdMy, hdMeq, hspan, hminmax⟩ :=
    span_facts m0 rest (fun m hm => ⟨(hval m hm).1, (hval m hm).2.1⟩)
  have hspand : spanDays (m0 :: rest) = maxNFold (m0 :: rest) (dayNumber m0.date) + 1 -
      dayNumber (minDateFold (m0 :: rest) m0.date) := rfl
  have hdays := iterateDays_mem_iff dM hdMv hdMy (spanDays (m0 :: rest))
    (minDateFold (m0 :: rest) m0.date) hminv hspan
  have hdaysnd := iterateDays_nodup dM hdMv hdMy (spanDays (m0 :: rest))
    (minDateFold (m0 :: rest) m0.date) hminv hspan
  have hd_in : d ∈ iterateDays (minDateFold (m0 :: rest) m0.date) (spanDays (m0 :: rest)) :=
    (hdays d).mpr ⟨hvd, hdlo, by omega⟩
  rw [fillMissingDays_cons, List.countP_append, countP_flatMap_sum]
  simp only [List.countP_map, Function.comp_def, zeroRecord]
  have hcm : (m0 :: rest).countP
      (fun m => mkKey m.dateString m.label == mkKey (isoString d) lab) =
      if mkKey (isoString d) lab ∈ (m0 :: rest).map (fun m => mkKey m.dateString m.label)
        then 1 else 0 :=
    countP_key_of_nodup (m0 :: rest) (fun m => mkKey m.dateString m.label)
      (mkKey (isoString d) lab) hnd
  rw [hcm]
  have h0 : ∀ cur ∈ iterateDays (minDateFold (m0 :: rest) m0.date) (spanDays (m0 :: rest)),
      cur ≠ d →
      (labels.filter (fun label =>
        !(((m0 :: rest).map (fun m => mkKey m.dateString m.label)).contains
          (mkKey (isoString cur) label)))).countP
        (fun label => mkKey (isoString cur) label == mkKey (isoString d) lab) = 0 := by
    intro cur hcur hne
    apply List.countP_eq_zero.mpr
    intro lab2 _ hbeq
    have he : mkKey (isoString cur) lab2 = mkKey (isoString d) lab := eq_of_beq hbeq
    exact hne (mkKey_iso_inj cur d lab2 lab ((hdays cur).mp hcur).1 hvd he).1
  have hone : ((iterateDays (minDateFold (m0 :: rest) m0.date)
        (spanDays (m0 :: rest))).map
      (fun cur =>
        (labels.filter (fun label =>
          !(((m0 :: rest).map (fun m => mkKey m.dateString m.label)).contains
            (mkKey (isoString cur) label)))).countP
          (fun label => mkKey (isoString cur) label == mkKey (isoString d) lab))).sum =
      (labels.filter (fun label =>
        !(((m0 :: rest).map (fun m => mkKey m.dateString m.label)).contains
          (mkKey (isoString d) label)))).countP
        (fun label => mkKey (isoString d) label == mkKey (isoString d) lab) :=
    sum_map_eq_single _ _ d hdaysnd hd_in h0
  rw [hone]
  have hcg : (labels.filter (fun label =>
      !(((m0 :: rest).map (fun m => mkKey m.dateString m.label)).contains
        (mkKey (isoString d) label)))).countP
      (fun label => mkKey (isoString d) label == mkKey (isoString d) lab) =
      (labels.filter (fun label =>
        !(((m0 :: rest).map (fun m => mkKey m.dateString m.label)).contains
          (mkKey (isoString d) label)))).countP (fun label => label == lab) := by
    apply List.countP_congr
    intro lab2 _
    constructor
    · intro hbeq
      have he := (mkKey_iso_inj d d lab2 lab hvd hvd (eq_of_beq hbeq)).2
      exact beq_iff_eq.mpr he
    · intro hbeq
      have he : lab2 = lab := eq_of_beq hbeq
      subst he
      exact beq_self_eq_true _
  rw [hcg]
  rw [countP_beq_of_nodup _ lab (hlnd.filter _)]
  by_cases hk : mkKey (isoString d) lab ∈
      (m0 :: rest).map (fun m => mkKey m.dateString m.label)
  · have hnm : lab ∉ labels.filter (fun label =>
        !(((m0 :: rest).map (fun m => mkKey m.dateString m.label)).contains
          (mkKey (isoString d) label))) := by
      intro hmem
      have hq := (List.mem_filter.mp hmem).2
      rw [Bool.not_eq_true', Bool.eq_false_iff] at hq
      exact hq (List.elem_iff.mpr hk)
    rw [if_pos hk, if_neg hnm]
  · have hmem : lab ∈ labels.filter (fun label =>
        !(((m0 :: rest).map (fun m => mkKey m.dateString m.label)).contains
          (mkKey (isoString d) label))) := by
      apply List.mem_filter.mpr
      refine ⟨hlab, ?_⟩
      rw [Bool.not_eq_true']
      rcases hb : ((m0 :: rest).map (fun m => mkKey m.dateString m.label)).contains
          (mkKey (isoString d) lab) with _ | _
      · exact hb
      · exact absurd (List.elem_iff.mp hb) hk
    rw [if_neg hk, if_pos hmem]

theorem fillMissingDays_mem_shape
    (m0 : DailyMetrics) (rest : List DailyMetrics) (labels : List String)
    (hval : ∀ m ∈ m0 :: rest,
      validYMD m.date ∧ m.date.year ≤ 9998 ∧ m.dateString = isoString m.date)
    (hlabs : ∀ m ∈ m0 :: rest, m.label ∈ labels) :
    ∀ x ∈ fillMissingDays (m0 :: rest) labels,
      validYMD x.date ∧ x.dateString = isoString x.date ∧
      dayNumber (minDateFold (m0 :: rest) m0.date) ≤ dayNumber x.date ∧
      dayNumber x.date ≤ maxNFold (m0 :: rest) (dayNumber m0.date) ∧
      x.label ∈ labels := by
  obtain ⟨hminv, dM, hdMv, hdMy, hdMeq, hspan, hminmax⟩ :=
    span_facts m0 rest (fun m hm => ⟨(hval m hm).1, (hval m hm).2.1⟩)
  have hspand : spanDays (m0 :: rest) = maxNFold (m0 :: rest) (dayNumber m0.date) + 1 -
      dayNumber (minDateFold (m0 :: rest) m0.date) := rfl
  have hdays := iterateDays_mem_iff dM hdMv hdMy (spanDays (m0 :: rest))
    (minDateFold (m0 :: rest) m0.date) hminv hspan
  intro x hx
  rw [fillMissingDays_cons] at hx
  rcases List.mem_append.mp hx with hm | hf
  · obtain ⟨hv, _, hds⟩ := hval x hm
    exact ⟨hv, hds, (minDateFold_min (m0 :: rest) m0.date).2 x hm,
      (maxNFold_max (m0 :: rest) (dayNumber m0.date)).2 x hm, hlabs x hm⟩
  · obtain ⟨cur, hcur, hx2⟩ := List.mem_flatMap.mp hf
    obtain ⟨lab2, hlab2, rfl⟩ := List.mem_map.mp hx2
    obtain ⟨hcv, hclo, hclt⟩ := (hdays cur).mp hcur
    refine ⟨hcv, rfl, hclo, ?_, List.mem_of_mem_filter hlab2⟩
    show dayNumber cur ≤ maxNFold (m0 :: rest) (dayNumber m0.date)
    omega

theorem pairs_count_one (days : List YMD) (labels : List String)
    (hdnd : days.Nodup) (hlnd : labels.Nodup)
    (hdval : ∀ c ∈ days, validYMD c)
    (d0 : YMD) (lab0 : String) (hv0 : validYMD d0)
    (hd0 : d0 ∈ days) (hl0 : lab0 ∈ labels) :
    (days.flatMap (fun cur => labels.map (fun lab => (cur, lab)))).countP
      (fun pr => mkKey (isoString d0) lab0 == mkKey (isoString pr.1) pr.2) = 1 := by
  rw [countP_flatMap_sum]
  simp only [List.countP_map, Function.comp_def]
  have h0 : ∀ cur ∈ days, cur ≠ d0 →
      labels.countP (fun lab => mkKey (isoString d0) lab0 == mkKey (isoString cur) lab) = 0 := by
    intro cur hcur hne
    apply List.countP_eq_zero.mpr
    intro lab _ hbeq
    have he := eq_of_beq hbeq
    exact hne ((mkKey_iso_inj d0 cur lab0 lab hv0 (hdval cur hcur) he).1.symm)
  have hone : (days.map (fun cur =>
      labels.countP (fun lab => mkKey (isoString d0) lab0 == mkKey (isoString cur) lab))).sum =
      labels.countP (fun lab => mkKey (isoString d0) lab0 == mkKey (isoString d0) lab) :=
    sum_map_eq_single _ _ d0 hdnd hd0 h0
  rw [hone]
  have hcg : labels.countP
      (fun lab => mkKey (isoString d0) lab0 == mkKey (isoString d0) lab) =
      labels.countP (fun lab => lab == lab0) := by
    apply List.countP_congr
    intro lab _
    constructor
    · intro hbeq
      have he := (mkKey_iso_inj d0 d0 lab0 lab hv0 hv0 (eq_of_beq hbeq)).2
      exact beq_iff_eq.mpr he.symm
    · intro hbeq
      have he : lab = lab0 := eq_of_beq hbeq
      subst he
      exact beq_self_eq_true _
  rw [hcg, countP_beq_of_nodup labels lab0 hlnd]
  rw [if_pos hl0]

theorem harmonize_metrics_pos (s : HarmonizerState)
    (h : (s.historicalData ++ s.liveData).length > 0) :
    (harmonize s true).1.metrics =
      sortMetricsByDate (fillMissingDays (s.historicalData ++ s.liveData)
        (jsDedup ((s.historicalData ++ s.liveData).map (fun m => m.label)))) := by
  simp only [harmonize]
  rw [if_pos]
  exact ⟨trivial, h⟩

/-- **C1** (counterexample). Two input records sharing the same `(date, label)`
key survive gap-filling untouched: with one distinct label and a one-day span
the claim promises exactly `1 × 1 = 1` record, but `harmonize(fillMissing=true)`
returns 2 records, and the pair `("2025-01-10", "A")` occurs twice. -/
theorem harmonize_fill_unique_C1_counterexample :
    (jsDedup ((stateC1.historicalData ++ stateC1.liveData).map (fun m => m.label))).length *
        spanDays (stateC1.historicalData ++ stateC1.liveData) = 1 ∧
    (harmonize stateC1 true).1.metrics.length = 2 ∧
    (harmonize stateC1 true).1.metrics.countP
      (fun m => mkKey m.dateString m.label == mkKey "2025-01-10" "A") = 2 := by
  have hmet := harmonize_metrics_pos stateC1 (by decide)
  have hperm : (sortMetricsByDate (fillMissingDays
      (stateC1.historicalData ++ stateC1.liveData)
      (jsDedup ((stateC1.historicalData ++ stateC1.liveData).map (fun m => m.label))))).Perm
      (fillMissingDays (stateC1.historicalData ++ stateC1.liveData)
        (jsDedup ((stateC1.historicalData ++ stateC1.liveData).map (fun m => m.label)))) :=
    List.mergeSort_perm _ _
  refine ⟨by decide, ?_, ?_⟩
  · rw [hmet, hperm.length_eq]
    decide
  · rw [hmet, hperm.countP_eq]
    decide

/-- **C1** (amended). For a non-empty input whose records carry calendar-valid
dates (year at most 9998) with `dateString` the canonical ISO rendering of
`date`, and whose `(dateString, label)` keys are pairwise distinct,
`harmonize(fillMissing=true)` returns exactly
(number of distinct labels) × (days in the inclusive observed span) records,
and every `(date, label)` key occurring in the result occurs exactly once. -/
theorem harmonize_fill_unique_C1 (s : HarmonizerState)
    (m0 : DailyMetrics) (rest : List DailyMetrics)
    (hm : s.historicalData ++ s.liveData = m0 :: rest)
    (hval : ∀ m ∈ s.historicalData ++ s.liveData,
      validYMD m.date ∧ m.date.year ≤ 9998 ∧ m.dateString = isoString m.date)
    (hnd : ((s.historicalData ++ s.liveData).map
      (fun m => mkKey m.dateString m.label)).Nodup) :
    (harmonize s true).1.metrics.length =
      (jsDedup ((s.historicalData ++ s.liveData).map (fun m => m.label))).length *
        spanDays (s.historicalData ++ s.liveData) ∧
    ∀ x ∈ (harmonize s true).1.metrics,
      (harmonize s true).1.metrics.countP
        (fun m => mkKey m.dateString m.label == mkKey x.dateString x.label) = 1 := by
  rw [hm] at hval hnd ⊢
  have hmet := harmonize_metrics_pos s (by rw [hm]; simp)
  rw [hm] at hmet
  have hlnd := jsDedup_nodup ((m0 :: rest).map (fun m => m.label))
  have hlabs : ∀ m ∈ m0 :: rest, m.label ∈ jsDedup ((m0 :: rest).map (fun m => m.label)) :=
    fun m hm2 => (jsDedup_mem _ _).mpr (List.mem_map_of_mem _ hm2)
  obtain ⟨hminv, dM, hdMv, hdMy, hdMeq, hspan, hminmax⟩ :=
    span_facts m0 rest (fun m hm2 => ⟨(hval m hm2).1, (hval m hm2).2.1⟩)
  have hspand : spanDays (m0 :: rest) = maxNFold (m0 :: rest) (dayNumber m0.date) + 1 -
      dayNumber (minDateFold (m0 :: rest) m0.date) := rfl
  have hdays := iterateDays_mem_iff dM hdMv hdMy (spanDays (m0 :: rest))
    (minDateFold (m0 :: rest) m0.date) hminv hspan
  have hdaysnd := iterateDays_nodup dM hdMv hdMy (spanDays (m0 :: rest))
    (minDateFold (m0 :: rest) m0.date) hminv hspan
  have hdval : ∀ c ∈ iterateDays (minDateFold (m0 :: rest) m0.date)
      (spanDays (m0 :: rest)), validYMD c := fun c hc => ((hdays c).mp hc).1
  have hshape := fillMissingDays_mem_shape m0 rest _ hval hlabs
  have hperm : (sortMetricsByDate (fillMissingDays (m0 :: rest)
      (jsDedup ((m0 :: rest).map (fun m => m.label))))).Perm
      (fillMissingDays (m0 :: rest) (jsDedup ((m0 :: rest).map (fun m => m.label)))) :=
    List.mergeSort_perm _ _
  constructor
  · have hfib : ∀ x ∈ fillMissingDays (m0 :: rest)
        (jsDedup ((m0 :: rest).map (fun m => m.label))),
        ((iterateDays (minDateFold (m0 :: rest) m0.date) (spanDays (m0 :: rest))).flatMap
          (fun cur => (jsDedup ((m0 :: rest).map (fun m => m.label))).map
            (fun lab => (cur, lab)))).countP
          (fun pr => mkKey x.dateString x.label == mkKey (isoString pr.1) pr.2) = 1 := by
      intro x hx
      obtain ⟨hxv, hxds, hxlo, hxhi, hxlab⟩ := hshape x hx
      rw [hxds]
      have hx_in : x.date ∈ iterateDays (minDateFold (m0 :: rest) m0.date)
          (spanDays (m0 :: rest)) := (hdays x.date).mpr ⟨hxv, hxlo, by omega⟩
      exact pairs_count_one _ _ hdaysnd hlnd hdval x.date x.label hxv hx_in hxlab
    have hlen := length_eq_sum_countP
      (fillMissingDays (m0 :: rest) (jsDedup ((m0 :: rest).map (fun m => m.label))))
      ((iterateDays (minDateFold (m0 :: rest) m0.date) (spanDays (m0 :: rest))).flatMap
        (fun cur => (jsDedup ((m0 :: rest).map (fun m => m.label))).map
          (fun lab => (cur, lab))))
      (fun pr x => mkKey x.dateString x.label == mkKey (isoString pr.1) pr.2) hfib
    have hmap1 : ∀ k ∈ (iterateDays (minDateFold (m0 :: rest) m0.date)
        (spanDays (m0 :: rest))).flatMap
          (fun cur => (jsDedup ((m0 :: rest).map (fun m => m.label))).map
            (fun lab => (cur, lab))),
        (fillMissingDays (m0 :: rest)
          (jsDedup ((m0 :: rest).map (fun m => m.label)))).countP
          ((fun pr x => mkKey x.dateString x.label == mkKey (isoString pr.1) pr.2) k) = 1 := by
      intro k hk
      obtain ⟨cur, hcur, hk2⟩ := List.mem_flatMap.mp hk
      obtain ⟨lab, hlab, rfl⟩ := List.mem_map.mp hk2
      obtain ⟨hcv, hclo, hclt⟩ := (hdays cur).mp hcur
      exact fillMissingDays_countP_key m0 rest _ hval hnd hlnd cur lab hcv hclo
        (by omega) hlab
    rw [hmet, hperm.length_eq, hlen, List.map_congr_left hmap1]
    have hc1 : (((iterateDays (minDateFold (m0 :: rest) m0.date)
        (spanDays (m0 :: rest))).flatMap
          (fun cur => (jsDedup ((m0 :: rest).map (fun m => m.label))).map
            (fun lab => (cur, lab)))).map (fun k => 1)).sum =
        ((iterateDays (minDateFold (m0 :: rest) m0.date) (spanDays (m0 :: rest))).flatMap
          (fun cur => (jsDedup ((m0 :: rest).map (fun m => m.label))).map
            (fun lab => (cur, lab)))).length * 1 := by
      simp [List.map_const']
    rw [hc1, Nat.mul_one, length_flatMap_sum]
    have hconst : ∀ c ∈ iterateDays (minDateFold (m0 :: rest) m0.date)
        (spanDays (m0 :: rest)),
        ((jsDedup ((m0 :: rest).map (fun m => m.label))).map (fun lab => (c, lab))).length =
          (jsDedup ((m0 :: rest).map (fun m => m.label))).length := by
      intro c _
      rw [List.length_map]
    rw [List.map_congr_left hconst]
    have hc2 : ((iterateDays (minDateFold (m0 :: rest) m0.date)
        (spanDays (m0 :: rest))).map
          (fun c => (jsDedup ((m0 :: rest).map (fun m => m.label))).length)).sum =
        (iterateDays (minDateFold (m0 :: rest) m0.date) (spanDays (m0 :: rest))).length *
          (jsDedup ((m0 :: rest).map (fun m => m.label))).length := by
      simp [List.map_const']
    rw [hc2, iterateDays_length, Nat.mul_comm]
  · intro x hx
    rw [hmet] at hx ⊢
    have hx2 : x ∈ fillMissingDays (m0 :: rest)
        (jsDedup ((m0 :: rest).map (fun m => m.label))) := hperm.mem_iff.mp hx
    rw [hperm.countP_eq]
    obtain ⟨hxv, hxds, hxlo, hxhi, hxlab⟩ := hshape x hx2
    rw [hxds]
    exact fillMissingDays_countP_key m0 rest _ hval hnd hlnd x.date x.label hxv hxlo
      hxhi hxlab

theorem harmonize_fill_unique_C1_witness :
    (harmonize stateC1W true).1.metrics.length =
      (jsDedup ((stateC1W.historicalData ++ stateC1W.liveData).map (fun m => m.label))).length *
        spanDays (stateC1W.historicalData ++ stateC1W.liveData) ∧
    ∀ x ∈ (harmonize stateC1W true).1.metrics,
      (harmonize stateC1W true).1.metrics.countP
        (fun m => mkKey m.dateString m.label == mkKey x.dateString x.label) = 1 :=
  harmonize_fill_unique_C1 stateC1W mDup1 [mDupB] rfl (by decide) (by decide)

end FashionPulse

